import Mathlib

/-!
# go-jwt-azure: remote signing through a key vault

A shallow embedding of the package `azure` (files `errors.go`, `hash.go`,
`key.go`, `method.go`) together with the parts of the Go standard library it
calls (`encoding/base64`, `net/url`, `strings`).

Conventions of the embedding:

* a Go `string` and a Go `[]byte` are both a list of bytes (`List Byte`); a nil
  slice and an empty slice are both the empty list;
* a Go `error` result is an `Option Error` (`none` is `nil`); a function that
  returns a value together with an error returns a pair, because the standard
  library may return a non-empty value next to a non-nil error;
* a pointer field of a response (`*string`, `*bool`) is an `Option`;
* the remote client is an interface value: its two methods are functions over
  an explicit client state, and every invocation is appended to a trace.
-/

namespace Azure

/-! ## Bytes and strings -/

/-- One byte. -/
abbrev Byte := Fin 256

/-- Go `[]byte`. -/
abbrev Bytes := List Byte

/-- Go `string`: an immutable sequence of bytes. -/
abbrev GoString := List Byte

/-- The byte of an ASCII character literal such as `'/'`. -/
def byte (c : Char) : Byte := ⟨c.toNat % 256, Nat.mod_lt _ (by decide)⟩

/-- UTF-8 encoding of one code point (Go source text is UTF-8). -/
def utf8 (c : Char) : List Byte :=
  let n := c.toNat
  if n < 0x80 then [⟨n % 256, Nat.mod_lt _ (by decide)⟩]
  else if n < 0x800 then
    [⟨(0xC0 + n / 64) % 256, Nat.mod_lt _ (by decide)⟩,
     ⟨(0x80 + n % 64) % 256, Nat.mod_lt _ (by decide)⟩]
  else if n < 0x10000 then
    [⟨(0xE0 + n / 4096) % 256, Nat.mod_lt _ (by decide)⟩,
     ⟨(0x80 + n / 64 % 64) % 256, Nat.mod_lt _ (by decide)⟩,
     ⟨(0x80 + n % 64) % 256, Nat.mod_lt _ (by decide)⟩]
  else
    [⟨(0xF0 + n / 262144) % 256, Nat.mod_lt _ (by decide)⟩,
     ⟨(0x80 + n / 4096 % 64) % 256, Nat.mod_lt _ (by decide)⟩,
     ⟨(0x80 + n / 64 % 64) % 256, Nat.mod_lt _ (by decide)⟩,
     ⟨(0x80 + n % 64) % 256, Nat.mod_lt _ (by decide)⟩]

/-- The Go string denoted by a string literal. -/
def str (s : String) : GoString := s.data.flatMap utf8

/-! ## Errors (`errors.go`, and the error values of the libraries used) -/

/-- The error values that can reach a caller of the package. -/
inductive Error where
  /-- `azure: invalid server response` -/
  | ErrInvalidServerResponse
  /-- `azure: response key id mismatch` -/
  | ErrMismatchResponseKeyID
  /-- `azure: unsupported algorithm` -/
  | ErrUnsupportedAlgorithm
  /-- `azure: verification error` -/
  | ErrVerification
  /-- `jwt.ErrInvalidKey` -/
  | ErrInvalidKey
  /-- `jwt.ErrInvalidKeyType` -/
  | ErrInvalidKeyType
  /-- `base64.CorruptInputError`, carrying the offset of the offending byte -/
  | CorruptInputError (offset : Nat)
  /-- the `*url.Error` of `net/url`, with the reason it wraps -/
  | URLError (reason : String)
  /-- any other error value, e.g. one produced by the remote client -/
  | other (tag : Nat)
  deriving DecidableEq, Repr

/-- Equality of results is decidable when it is on values and errors. -/
instance instDecidableEqExcept {ε α : Type} [DecidableEq ε] [DecidableEq α] :
    DecidableEq (Except ε α)
  | .ok a, .ok b => if h : a = b then isTrue (by rw [h]) else isFalse (fun h2 => h (Except.ok.inj h2))
  | .error a, .error b =>
    if h : a = b then isTrue (by rw [h]) else isFalse (fun h2 => h (Except.error.inj h2))
  | .ok _, .error _ => isFalse (fun h => Except.noConfusion h)
  | .error _, .ok _ => isFalse (fun h => Except.noConfusion h)

/-! ## `encoding/base64`, the encoding `RawURLEncoding`

`RawURLEncoding` is the URL alphabet with `padChar = NoPadding` and
`strict = false`. -/

namespace Base64

/-- The alphabet `encodeURL`. -/
def encodeURL : List Byte :=
  str "ABCDEFGHIJKLMNOPQRSTUVWXYZabcdefghijklmnopqrstuvwxyz0123456789-_"

/-- `enc.encode[i]`. -/
def encode (i : Nat) : Byte := encodeURL.getD i 0

/-- `enc.decodeMap[in]`: the position of `in` in the alphabet, `0xff` for a
byte outside it. -/
def decodeMap (b : Byte) : Nat :=
  let i := encodeURL.indexOf b
  if i < 64 then i else 0xff

/-- `Encoding.Encode` for `RawURLEncoding`: whole groups of three bytes give four
characters; a remainder of one byte gives two characters and a remainder of two
bytes gives three, with no padding character. -/
def Encode : Bytes → List Byte
  | b0 :: b1 :: b2 :: rest =>
    let val := b0.val <<< 16 ||| b1.val <<< 8 ||| b2.val
    encode (val >>> 18 &&& 0x3F) :: encode (val >>> 12 &&& 0x3F) ::
      encode (val >>> 6 &&& 0x3F) :: encode (val &&& 0x3F) :: Encode rest
  | [b0, b1] =>
    let val := b0.val <<< 16 ||| b1.val <<< 8
    [encode (val >>> 18 &&& 0x3F), encode (val >>> 12 &&& 0x3F), encode (val >>> 6 &&& 0x3F)]
  | [b0] =>
    let val := b0.val <<< 16
    [encode (val >>> 18 &&& 0x3F), encode (val >>> 12 &&& 0x3F)]
  | [] => []

/-- `Encoding.EncodeToString`. -/
def EncodeToString (src : Bytes) : GoString := Encode src

/-- `byte(v)`: conversion of an unsigned integer to a byte. -/
def toByte (v : Nat) : Byte := ⟨v % 256, Nat.mod_lt _ (by decide)⟩

/-- Outcome of `decodeQuantum`: the input not yet read, the next source index
`nsi`, the bytes written to `dst` (the count `n` is their number) and the
error. -/
structure Quantum where
  rest : List Byte
  nsi : Nat
  out : Bytes
  err : Option Error
  deriving DecidableEq, Repr

/-- The tail of `decodeQuantum`: converts the `dlen` collected 6-bit values
into `dlen - 1` bytes (`strict` is false, so leftover bits are not checked). -/
def assemble (dbuf : List Nat) : Bytes :=
  let val := dbuf.getD 0 0 <<< 18 ||| dbuf.getD 1 0 <<< 12 ||| dbuf.getD 2 0 <<< 6 ||| dbuf.getD 3 0
  ([toByte (val >>> 16), toByte (val >>> 8), toByte (val >>> 0)]).take (dbuf.length - 1)

/-- `Encoding.decodeQuantum` for `RawURLEncoding`. `src` is the input from
index `si` on, `dbuf` holds the `j = dbuf.length` values collected so far.
Since `padChar` is `NoPadding`, a byte outside the alphabet that is not a
newline or carriage return is always corrupt input. -/
def decodeQuantum : (src : List Byte) → (si : Nat) → (dbuf : List Nat) → Quantum
  | [], si, dbuf =>
    if dbuf.length = 4 then ⟨[], si, assemble dbuf, none⟩
    else if dbuf.length = 0 then ⟨[], si, [], none⟩
    else if dbuf.length = 1 then ⟨[], si, [], some (.CorruptInputError (si - dbuf.length))⟩
    else ⟨[], si, assemble dbuf, none⟩
  | c :: src, si, dbuf =>
    if dbuf.length = 4 then ⟨c :: src, si, assemble dbuf, none⟩
    else
      let out := decodeMap c
      if out ≠ 0xff then decodeQuantum src (si + 1) (dbuf ++ [out])
      else if c = byte '\n' ∨ c = byte '\r' then decodeQuantum src (si + 1) dbuf
      else ⟨src, si + 1, [], some (.CorruptInputError (si + 1 - 1))⟩

/-- The loop of `Encoding.Decode`: quantum after quantum while `si < len(src)`,
stopping at the first error. The 8- and 4-byte fast paths of the library
compute the same result and are not modelled. Each quantum reads at least one
byte, so `fuel = len(src)` iterations suffice. -/
def decodeLoop : (fuel : Nat) → (src : List Byte) → (si : Nat) → Bytes × Option Error
  | 0, _, _ => ([], none)
  | fuel + 1, src, si =>
    if src = [] then ([], none)
    else
      let q := decodeQuantum src si []
      if q.err ≠ none then (q.out, q.err)
      else
        let r := decodeLoop fuel q.rest q.nsi
        (q.out ++ r.1, r.2)

/-- `Encoding.DecodeString`: returns `dbuf[:n], err`, i.e. the bytes decoded
before the error together with the error. -/
def DecodeString (s : GoString) : Bytes × Option Error :=
  decodeLoop s.length s 0

/-- Whether the decoder accepts the input `src` when `j` values of the current
quantum are collected: a byte of the alphabet is one value more, a newline or
carriage return is skipped, any other byte is refused, and the input may not
end on a quantum of one value. -/
def accepts : (src : List Byte) → (j : Nat) → Bool
  | [], j => j != 1
  | c :: src, j =>
    if decodeMap c ≠ 0xff then accepts src ((j + 1) % 4)
    else if c = byte '\n' ∨ c = byte '\r' then accepts src j
    else false

/-- The string without its newlines and carriage returns, the bytes that the
decoder skips. -/
def stripNewlines (s : GoString) : GoString :=
  s.filter (fun b => !decide (b = byte '\n' ∨ b = byte '\r'))

/-- Unpadded base64url text (RFC 4648, section 5, without padding): only bytes
of the URL alphabet, and a length that is not 1 modulo 4. -/
def isRawURL (s : GoString) : Bool :=
  s.all (fun b => decide (decodeMap b ≠ 0xff)) && decide (s.length % 4 ≠ 1)

end Base64

/-! ## `strings` -/

namespace Strings

/-- `strings.HasPrefix`. -/
def HasPrefix (s pre : GoString) : Bool := pre.isPrefixOf s

/-- `strings.TrimPrefix`: `s` without the leading `pre`, or `s` itself when it
does not start with `pre`. -/
def TrimPrefix (s pre : GoString) : GoString :=
  if HasPrefix s pre then s.drop pre.length else s

/-- `strings.Index`: the index of the first instance of `substr`, `none` for
`-1`. -/
def Index : (s substr : GoString) → Option Nat
  | [], substr => if substr = [] then some 0 else none
  | c :: s, substr =>
    if substr.isPrefixOf (c :: s) then some 0 else (Index s substr).map (· + 1)

/-- `strings.LastIndex`: the index of the last instance of `substr`, `none`
for `-1`. -/
def LastIndex : (s substr : GoString) → Option Nat
  | [], substr => if substr = [] then some 0 else none
  | c :: s, substr =>
    match LastIndex s substr with
    | some i => some (i + 1)
    | none => if substr.isPrefixOf (c :: s) then some 0 else none

/-- `strings.Contains`. -/
def Contains (s substr : GoString) : Bool := (Index s substr).isSome

/-- `strings.Count` for a one-byte separator. -/
def Count (s : GoString) (sep : Byte) : Nat := s.count sep

/-- `strings.Cut` for a one-byte separator: the text before and after the first
instance of `sep`, and whether `sep` was found. -/
def Cut : (s : GoString) → (sep : Byte) → GoString × GoString × Bool
  | [], _ => ([], [], false)
  | c :: s, sep =>
    if c = sep then ([], s, true)
    else
      let r := Cut s sep
      (c :: r.1, r.2.1, r.2.2)

/-- `strings.Split` for a one-byte separator: the substrings between the
instances of `sep`; a string without `sep` gives the one-element slice. -/
def Split : (s : GoString) → (sep : Byte) → List GoString
  | [], _ => [[]]
  | c :: s, sep =>
    if c = sep then [] :: Split s sep
    else
      match Split s sep with
      | [] => [[c]]
      | p :: ps => (c :: p) :: ps

/-- `strings.ToLower` on one ASCII byte. -/
def lower (c : Byte) : Byte :=
  if byte 'A' ≤ c ∧ c ≤ byte 'Z' then ⟨(c.val + 32) % 256, Nat.mod_lt _ (by decide)⟩ else c

/-- `strings.ToLower`, for the ASCII strings it is applied to (a URL scheme
holds only ASCII letters, digits, `+`, `-` and `.`). -/
def ToLower (s : GoString) : GoString := s.map lower

end Strings

/-! ## `net/netip`, as far as `net/url` uses it -/

namespace Netip

open Strings

/-- What `url.parseHost` reads of a `netip.Addr`: whether it is an IPv4
address (`Addr.Is4`). -/
structure Addr where
  Is4 : Bool
  deriving DecidableEq, Repr

/-- The loop of `parseIPv4Fields` over `s = in[off:end]`, at index `i`, with
the value `val` and the number of digits `digLen` of the current octet, the
number `pos` of octets stored and the previous byte `prev`; `true` when the
text is four octets (the error is nil). -/
def parseIPv4FieldsLoop : (s : GoString) → (i val pos digLen : Nat) → (prev : Byte) → Bool
  | [], _, _, pos, _, _ => decide (¬ pos < 3)
  | c :: s, i, val, pos, digLen, prev =>
    if byte '0' ≤ c ∧ c ≤ byte '9' then
      if digLen = 1 ∧ val = 0 then false
      else if val * 10 + (c.val - '0'.toNat) > 255 then false
      else parseIPv4FieldsLoop s (i + 1) (val * 10 + (c.val - '0'.toNat)) pos (digLen + 1) c
    else if c = byte '.' then
      if i = 0 ∨ s = [] ∨ prev = byte '.' then false
      else if pos = 3 then false
      else parseIPv4FieldsLoop s (i + 1) 0 (pos + 1) 0 c
    else false

/-- `parseIPv4Fields`, on the text of the fields. -/
def parseIPv4Fields (s : GoString) : Bool := parseIPv4FieldsLoop s 0 0 0 0 0

/-- `parseIPv4`. -/
def parseIPv4 (s : GoString) : Except Error Addr :=
  if parseIPv4Fields s then .ok { Is4 := true } else .error (.URLError "invalid host")

/-- The number of hexadecimal digits that `s` starts with. -/
def hexDigits : (s : GoString) → Nat
  | [] => 0
  | c :: s =>
    if (byte '0' ≤ c ∧ c ≤ byte '9') ∨ (byte 'a' ≤ c ∧ c ≤ byte 'f') ∨ (byte 'A' ≤ c ∧ c ≤ byte 'F')
    then hexDigits s + 1 else 0

/-- The end of `parseIPv6`: the whole text must be used, and the ellipsis must
be there exactly when fewer than 16 bytes were parsed. -/
def parseIPv6End (s : GoString) (i : Nat) (ellipsis : Bool) : Bool :=
  if s ≠ [] then false
  else if i < 16 then ellipsis
  else !ellipsis

/-- The loop of `parseIPv6`, group after group: `s` is the text left, `i` the
number of address bytes parsed, `ellipsis` whether `::` was seen. Each pass
reads at least one byte, so `len(s) + 1` passes suffice. -/
def parseIPv6Loop : (fuel : Nat) → (s : GoString) → (i : Nat) → (ellipsis : Bool) → Bool
  | 0, _, _, _ => false
  | fuel + 1, s, i, ellipsis =>
    if ¬ i < 16 then parseIPv6End s i ellipsis
    else if hexDigits s > 4 then false
    else if hexDigits s = 0 then false
    else if (s.drop (hexDigits s)).head? = some (byte '.') then
      if !ellipsis ∧ i ≠ 12 then false
      else if i + 4 > 16 then false
      else if !parseIPv4Fields s then false
      else parseIPv6End [] (i + 4) ellipsis
    else
      let s1 := s.drop (hexDigits s)
      if s1 = [] then parseIPv6End s1 (i + 2) ellipsis
      else if s1.head? ≠ some (byte ':') then false
      else if s1.length = 1 then false
      else if (s1.drop 1).head? = some (byte ':') then
        if ellipsis then false
        else if s1.drop 2 = [] then parseIPv6End [] (i + 2) true
        else parseIPv6Loop fuel (s1.drop 2) (i + 2) true
      else parseIPv6Loop fuel (s1.drop 1) (i + 2) ellipsis

/-- `parseIPv6`: splits the zone off at the first `%`, reads a leading `::`,
then the groups. -/
def parseIPv6 (input : GoString) : Except Error Addr :=
  let c := Cut input (byte '%')
  if c.2.2 ∧ c.2.1 = [] then .error (.URLError "invalid host")
  else
    let s := c.1
    if HasPrefix s (str "::") then
      if s.drop 2 = [] then .ok { Is4 := false }
      else if parseIPv6Loop ((s.drop 2).length + 1) (s.drop 2) 0 true then .ok { Is4 := false }
      else .error (.URLError "invalid host")
    else if parseIPv6Loop (s.length + 1) s 0 false then .ok { Is4 := false }
    else .error (.URLError "invalid host")

/-- The loop of `ParseAddr`: the first of `.`, `:` and `%` in the text decides
how the whole text `s` is parsed. -/
def ParseAddrLoop (s : GoString) : (rest : GoString) → Except Error Addr
  | [] => .error (.URLError "invalid host")
  | c :: rest =>
    if c = byte '.' then parseIPv4 s
    else if c = byte ':' then parseIPv6 s
    else if c = byte '%' then .error (.URLError "invalid host")
    else ParseAddrLoop s rest

/-- `netip.ParseAddr`. -/
def ParseAddr (s : GoString) : Except Error Addr := ParseAddrLoop s s

end Netip

/-! ## `net/url` -/

namespace Url

open Strings

/-- The fields of `url.URL` that `url.Parse` fills from the text (the user
information is validated but not kept here). -/
structure URL where
  Scheme : GoString := []
  Opaque : GoString := []
  Host : GoString := []
  Path : GoString := []
  RawQuery : GoString := []
  Fragment : GoString := []
  deriving DecidableEq, Repr

/-- The escaping modes of `net/url`. -/
inductive encoding where
  | encodePath | encodePathSegment | encodeHost | encodeZone
  | encodeUserPassword | encodeQueryComponent | encodeFragment
  deriving DecidableEq, Repr

open encoding

/-- `ishex`. -/
def ishex (c : Byte) : Bool :=
  (byte '0' ≤ c ∧ c ≤ byte '9') ∨ (byte 'a' ≤ c ∧ c ≤ byte 'f') ∨ (byte 'A' ≤ c ∧ c ≤ byte 'F')

/-- `unhex`. -/
def unhex (c : Byte) : Nat :=
  if byte '0' ≤ c ∧ c ≤ byte '9' then c.val - '0'.toNat
  else if byte 'a' ≤ c ∧ c ≤ byte 'f' then c.val - 'a'.toNat + 10
  else if byte 'A' ≤ c ∧ c ≤ byte 'F' then c.val - 'A'.toNat + 10
  else 0

/-- `shouldEscape`: whether byte `c` must be escaped in the given mode. -/
def shouldEscape (c : Byte) (mode : encoding) : Bool :=
  if (byte 'a' ≤ c ∧ c ≤ byte 'z') ∨ (byte 'A' ≤ c ∧ c ≤ byte 'Z') ∨ (byte '0' ≤ c ∧ c ≤ byte '9') then
    false
  else if (mode = encodeHost ∨ mode = encodeZone) ∧ c ∈ str "!$&'()*+,;=:[]<>\"" then false
  else if c ∈ str "-_.~" then false
  else if c ∈ str "$&+,/:;=?@" ∧ mode = encodePath then c = byte '?'
  else if c ∈ str "$&+,/:;=?@" ∧ mode = encodePathSegment then c ∈ str "/;,?"
  else if c ∈ str "$&+,/:;=?@" ∧ mode = encodeUserPassword then c ∈ str "@/?:"
  else if c ∈ str "$&+,/:;=?@" ∧ mode = encodeQueryComponent then true
  else if c ∈ str "$&+,/:;=?@" ∧ mode = encodeFragment then false
  else if mode = encodeFragment ∧ c ∈ str "!()*" then false
  else true

/-- The first loop of `unescape`: checks that every `%` starts a well-formed
escape and that the mode allows each byte; `none` when the text is accepted. -/
def unescapeCheck : (s : GoString) → (mode : encoding) → Option Error
  | [], _ => none
  | c :: s, mode =>
    if c = byte '%' then
      match s with
      | a :: b :: s2 =>
        if !ishex a || !ishex b then some (.URLError "invalid URL escape")
        else if mode = encodeHost ∧ unhex a < 8 ∧ [c, a, b] ≠ str "%25" then
          some (.URLError "invalid URL escape")
        else if mode = encodeZone ∧ [c, a, b] ≠ str "%25" ∧
            Base64.toByte (unhex a <<< 4 ||| unhex b) ≠ byte ' ' ∧
            shouldEscape (Base64.toByte (unhex a <<< 4 ||| unhex b)) encodeHost then
          some (.URLError "invalid URL escape")
        else unescapeCheck s2 mode
      | _ => some (.URLError "invalid URL escape")
    else if c = byte '+' then unescapeCheck s mode
    else if (mode = encodeHost ∨ mode = encodeZone) ∧ c.val < 0x80 ∧ shouldEscape c encodeHost then
      some (.URLError "invalid character in host name")
    else unescapeCheck s mode

/-- The second loop of `unescape`, run on a checked text: replaces each escape
by its byte, and `+` by a space in query mode. (The library returns `s`
itself when there is nothing to replace, which is what this loop computes
then.) -/
def unescapeBuild : (s : GoString) → (mode : encoding) → GoString
  | [], _ => []
  | c :: s, mode =>
    if c = byte '%' then
      match s with
      | a :: b :: s2 => Base64.toByte (unhex a <<< 4 ||| unhex b) :: unescapeBuild s2 mode
      | _ => []
    else if c = byte '+' then
      (if mode = encodeQueryComponent then byte ' ' else byte '+') :: unescapeBuild s mode
    else c :: unescapeBuild s mode

/-- `unescape`. -/
def unescape (s : GoString) (mode : encoding) : Except Error GoString :=
  match unescapeCheck s mode with
  | some e => .error e
  | none => .ok (unescapeBuild s mode)

/-- `stringContainsCTLByte`. -/
def stringContainsCTLByte (s : GoString) : Bool :=
  s.any (fun b => b < byte ' ' || b.val == 0x7f)

/-- `getScheme`: splits `rawURL` into the scheme before the first `:` and the
rest; `s` is `rawURL` from index `i` on. -/
def getSchemeLoop (rawURL : GoString) : (s : GoString) → (i : Nat) → Except Error (GoString × GoString)
  | [], _ => .ok ([], rawURL)
  | c :: s, i =>
    if (byte 'a' ≤ c ∧ c ≤ byte 'z') ∨ (byte 'A' ≤ c ∧ c ≤ byte 'Z') then getSchemeLoop rawURL s (i + 1)
    else if (byte '0' ≤ c ∧ c ≤ byte '9') ∨ c = byte '+' ∨ c = byte '-' ∨ c = byte '.' then
      if i = 0 then .ok ([], rawURL) else getSchemeLoop rawURL s (i + 1)
    else if c = byte ':' then
      if i = 0 then .error (.URLError "missing protocol scheme") else .ok (rawURL.take i, s)
    else .ok ([], rawURL)

/-- `getScheme`. -/
def getScheme (rawURL : GoString) : Except Error (GoString × GoString) :=
  getSchemeLoop rawURL rawURL 0

/-- `validOptionalPort`: empty, or `:` followed by digits. -/
def validOptionalPort : (port : GoString) → Bool
  | [] => true
  | c :: ds => c = byte ':' && ds.all (fun b => byte '0' ≤ b && b ≤ byte '9')

/-- `validUserinfo`. A byte outside ASCII never decodes to an allowed rune. -/
def validUserinfo (s : GoString) : Bool :=
  s.all (fun r =>
    (byte 'A' ≤ r && r ≤ byte 'Z') || (byte 'a' ≤ r && r ≤ byte 'z') ||
    (byte '0' ≤ r && r ≤ byte '9') || decide (r ∈ str "-._:~!$&'()*+,;=%@"))

/-- `parseHost`: a host in brackets must open with its `[`, end with `]`
before the optional port, and hold an IPv6 address, with or without zone;
any other host may end with a port. -/
def parseHost (host : GoString) : Except Error GoString :=
  match LastIndex host (str "[") with
  | some openBracketIdx =>
    if openBracketIdx > 0 then .error (.URLError "invalid IP-literal")
    else
      match LastIndex host (str "]") with
      | none => .error (.URLError "missing ']' in host")
      | some closeBracketIdx =>
        let colonPort := host.drop (closeBracketIdx + 1)
        if !validOptionalPort colonPort then .error (.URLError "invalid port after host")
        else do
          let unescapedColonPort ← unescape colonPort encodeHost
          let hostname := (host.take closeBracketIdx).drop (openBracketIdx + 1)
          let unescapedHostname ←
            match Index hostname (str "%25") with
            | some zoneIdx => do
              let hostPart ← unescape (hostname.take zoneIdx) encodeHost
              let zonePart ← unescape (hostname.drop zoneIdx) encodeZone
              pure (hostPart ++ zonePart)
            | none => unescape hostname encodeHost
          let addr ← Netip.ParseAddr unescapedHostname
          if addr.Is4 then throw (.URLError "invalid IP-literal")
          pure (str "[" ++ unescapedHostname ++ str "]" ++ unescapedColonPort)
  | none =>
    match LastIndex host (str ":") with
    | some i =>
      if !validOptionalPort (host.drop i) then .error (.URLError "invalid port after host")
      else unescape host encodeHost
    | none => unescape host encodeHost

/-- `parseAuthority`: validates the user information and returns the host. -/
def parseAuthority (authority : GoString) : Except Error GoString :=
  match LastIndex authority (str "@") with
  | none => parseHost authority
  | some i => do
    let host ← parseHost (authority.drop (i + 1))
    let userinfo := authority.take i
    if !validUserinfo userinfo then throw (.URLError "net/url: invalid userinfo")
    if !Contains userinfo (str ":") then
      let _ ← unescape userinfo encodeUserPassword
      pure host
    else
      let c := Cut userinfo (byte ':')
      let _ ← unescape c.1 encodeUserPassword
      let _ ← unescape c.2.1 encodeUserPassword
      pure host

/-- `parse`: parses a URL without fragment. -/
def parse (rawURL : GoString) (viaRequest : Bool) : Except Error URL :=
  if stringContainsCTLByte rawURL then .error (.URLError "net/url: invalid control character in URL")
  else if rawURL = [] ∧ viaRequest then .error (.URLError "empty url")
  else if rawURL = str "*" then .ok { Path := str "*" }
  else do
    let (scheme, rest0) ← getScheme rawURL
    let scheme := ToLower scheme
    let (rest, rawQuery) :=
      if rest0.getLast? = some (byte '?') ∧ Count rest0 (byte '?') = 1 then (rest0.dropLast, [])
      else ((Cut rest0 (byte '?')).1, (Cut rest0 (byte '?')).2.1)
    if !HasPrefix rest (str "/") ∧ scheme ≠ [] then
      pure { Scheme := scheme, RawQuery := rawQuery, Opaque := rest }
    else if !HasPrefix rest (str "/") ∧ viaRequest then throw (.URLError "invalid URI for request")
    else if !HasPrefix rest (str "/") ∧ Contains (Cut rest (byte '/')).1 (str ":") then
      throw (.URLError "first path segment in URL cannot contain colon")
    else if (scheme ≠ [] ∨ !viaRequest ∧ !HasPrefix rest (str "///")) ∧ HasPrefix rest (str "//") then
      let authority0 := rest.drop 2
      let (authority, rest) :=
        match Index authority0 (str "/") with
        | some i => (authority0.take i, authority0.drop i)
        | none => (authority0, [])
      let host ← parseAuthority authority
      let path ← unescape rest encodePath
      pure { Scheme := scheme, RawQuery := rawQuery, Host := host, Path := path }
    else
      let path ← unescape rest encodePath
      pure { Scheme := scheme, RawQuery := rawQuery, Path := path }

/-- `url.Parse`: cuts the fragment off at the first `#`, parses the rest and
then unescapes the fragment. -/
def Parse (rawURL : GoString) : Except Error URL :=
  let c := Cut rawURL (byte '#')
  match parse c.1 false with
  | .error e => .error e
  | .ok url =>
    if c.2.1 = [] then .ok url
    else
      match unescape c.2.1 encodeFragment with
      | .error e => .error e
      | .ok f => .ok { url with Fragment := f }

end Url

/-! ## `hash.go` -/

/-- The values of `crypto.Hash` that the table uses. -/
inductive Hash where
  | SHA256 | SHA384 | SHA512
  deriving DecidableEq, Repr

/-- The hash implementations of the running program (package `crypto`).
`Available h` is `h.Available()`; `Write h m` is the error that `Write(m)`
returns on the fresh state `h.New()`; `Sum h m` is what `Sum(nil)` returns after
that write, the digest of `m`. The interface `hash.Hash` documents that `Write`
never returns an error, which is the field `write_nil`. -/
structure Crypto where
  Available : Hash → Bool
  Write : Hash → Bytes → Option Error
  Sum : Hash → Bytes → Bytes
  write_nil : ∀ h m, Write h m = none

/-- `keyvault.JSONWebKeySignatureAlgorithm`, a string type. -/
abbrev JSONWebKeySignatureAlgorithm := GoString

/-- `keyvault.ES256`. -/
def ES256 : JSONWebKeySignatureAlgorithm := str "ES256"
/-- `keyvault.ES256K`. -/
def ES256K : JSONWebKeySignatureAlgorithm := str "ES256K"
/-- `keyvault.ES384`. -/
def ES384 : JSONWebKeySignatureAlgorithm := str "ES384"
/-- `keyvault.ES512`. -/
def ES512 : JSONWebKeySignatureAlgorithm := str "ES512"
/-- `keyvault.PS256`. -/
def PS256 : JSONWebKeySignatureAlgorithm := str "PS256"
/-- `keyvault.PS384`. -/
def PS384 : JSONWebKeySignatureAlgorithm := str "PS384"
/-- `keyvault.PS512`. -/
def PS512 : JSONWebKeySignatureAlgorithm := str "PS512"
/-- `keyvault.RS256`. -/
def RS256 : JSONWebKeySignatureAlgorithm := str "RS256"
/-- `keyvault.RS384`. -/
def RS384 : JSONWebKeySignatureAlgorithm := str "RS384"
/-- `keyvault.RS512`. -/
def RS512 : JSONWebKeySignatureAlgorithm := str "RS512"

/-- `HashAlgorithms` maps JWK signing algorithms to their corresponding hash
algorithms. -/
def HashAlgorithms : List (JSONWebKeySignatureAlgorithm × Hash) :=
  [ (ES256, .SHA256),
    (ES256K, .SHA256),
    (ES384, .SHA384),
    (ES512, .SHA512),
    (PS256, .SHA256),
    (PS384, .SHA384),
    (PS512, .SHA512),
    (RS256, .SHA256),
    (RS384, .SHA384),
    (RS512, .SHA512) ]

/-- `ComputeHash`. -/
def ComputeHash (c : Crypto) (algorithm : JSONWebKeySignatureAlgorithm) (message : Bytes) :
    Bytes × Option Error :=
  match HashAlgorithms.lookup algorithm with
  | none => ([], some .ErrUnsupportedAlgorithm)
  | some hash =>
    if !c.Available hash then ([], some .ErrUnsupportedAlgorithm)
    else
      match c.Write hash message with
      | some err => ([], some err)
      | none => (c.Sum hash message, none)

/-! ## The remote client (`keyvaultapi.BaseClientAPI`) -/

/-- `context.Context`: passed through to the client unchanged. -/
inductive Context where
  | Background
  | other (id : Nat)
  deriving DecidableEq, Repr

/-- `keyvault.KeySignParameters`. -/
structure KeySignParameters where
  Algorithm : JSONWebKeySignatureAlgorithm
  Value : Option GoString
  deriving DecidableEq, Repr

/-- `keyvault.KeyOperationResult`. -/
structure KeyOperationResult where
  Kid : Option GoString
  Result : Option GoString
  deriving DecidableEq, Repr

/-- `keyvault.KeyVerifyParameters`. -/
structure KeyVerifyParameters where
  Algorithm : JSONWebKeySignatureAlgorithm
  Digest : Option GoString
  Signature : Option GoString
  deriving DecidableEq, Repr

/-- `keyvault.KeyVerifyResult`. -/
structure KeyVerifyResult where
  Value : Option Bool
  deriving DecidableEq, Repr

/-- The two methods of `keyvaultapi.BaseClientAPI` that the package calls, as
functions of the client's state `σ`: each returns its result pair and the next
state. -/
structure BaseClientAPI (σ : Type) where
  Sign : Context → GoString → GoString → GoString → KeySignParameters → σ →
    (KeyOperationResult × Option Error) × σ
  Verify : Context → GoString → GoString → GoString → KeyVerifyParameters → σ →
    (KeyVerifyResult × Option Error) × σ

/-- One invocation of the remote client, with its arguments. -/
inductive Call where
  | Sign (ctx : Context) (vaultBaseURL keyName keyVersion : GoString) (parameters : KeySignParameters)
  | Verify (ctx : Context) (vaultBaseURL keyName keyVersion : GoString) (parameters : KeyVerifyParameters)
  deriving DecidableEq, Repr

/-- What the operations of the package act on: the state of the client and the
trace of the invocations made so far. -/
structure World (σ : Type) where
  state : σ
  trace : List Call

/-- The call `client.Sign(ctx, vaultBaseURL, name, version, parameters)`. -/
def callSign {σ : Type} (client : BaseClientAPI σ) (ctx : Context) (vaultBaseURL keyName keyVersion : GoString)
    (parameters : KeySignParameters) (w : World σ) : (KeyOperationResult × Option Error) × World σ :=
  let r := client.Sign ctx vaultBaseURL keyName keyVersion parameters w.state
  (r.1, { state := r.2, trace := w.trace ++ [Call.Sign ctx vaultBaseURL keyName keyVersion parameters] })

/-- The call `client.Verify(ctx, vaultBaseURL, name, version, parameters)`. -/
def callVerify {σ : Type} (client : BaseClientAPI σ) (ctx : Context) (vaultBaseURL keyName keyVersion : GoString)
    (parameters : KeyVerifyParameters) (w : World σ) : (KeyVerifyResult × Option Error) × World σ :=
  let r := client.Verify ctx vaultBaseURL keyName keyVersion parameters w.state
  (r.1, { state := r.2, trace := w.trace ++ [Call.Verify ctx vaultBaseURL keyName keyVersion parameters] })

/-! ## `key.go` -/

/-- `Key` represents a remote key in the Azure Key Vault. -/
structure Key (σ : Type) where
  Client : BaseClientAPI σ
  Context : Context
  id : GoString
  vaultBaseURL : GoString
  name : GoString
  version : GoString

/-- `NewKeyWithContext` create a remote key referenced by a key identifier with
context. The Go result `(*Key, error)` is `(nil, err)` or `(key, nil)`. -/
def NewKeyWithContext {σ : Type} (ctx : Context) (client : BaseClientAPI σ) (keyID : GoString) :
    Except Error (Key σ) :=
  match Url.Parse keyID with
  | .error _ => .error .ErrInvalidKey
  | .ok keyURL =>
    let parts := Strings.Split (Strings.TrimPrefix keyURL.Path (str "/")) (byte '/')
    if parts.length ≠ 3 then .error .ErrInvalidKey
    else if parts.getD 0 [] ≠ str "keys" then .error .ErrInvalidKey
    else
      .ok { Client := client
            Context := ctx
            id := keyID
            vaultBaseURL := keyURL.Scheme ++ str "://" ++ keyURL.Host
            name := parts.getD 1 []
            version := parts.getD 2 [] }

/-- `NewKey` create a remote key referenced by a key identifier. -/
def NewKey {σ : Type} (client : BaseClientAPI σ) (keyID : GoString) : Except Error (Key σ) :=
  NewKeyWithContext Context.Background client keyID

/-- `Key.signDigestToBase64RawURL` signs the message digest and returns the
signature in base64 raw URL form. -/
def Key.signDigestToBase64RawURL {σ : Type} (k : Key σ) (algorithm : JSONWebKeySignatureAlgorithm)
    (digest : Bytes) (w : World σ) : (GoString × Option Error) × World σ :=
  let value := Base64.EncodeToString digest
  let r := callSign k.Client k.Context k.vaultBaseURL k.name k.version
    { Algorithm := algorithm, Value := some value } w
  match r.1.2 with
  | some err => (([], some err), r.2)
  | none =>
    match r.1.1.Kid with
    | none => (([], some .ErrMismatchResponseKeyID), r.2)
    | some kid =>
      if kid ≠ k.id then (([], some .ErrMismatchResponseKeyID), r.2)
      else
        match r.1.1.Result with
        | none => (([], some .ErrInvalidServerResponse), r.2)
        | some result => ((result, none), r.2)

/-- `Key.signToBase64RawURL` signs the message and returns the signature in
base64 raw URL form. -/
def Key.signToBase64RawURL {σ : Type} (c : Crypto) (k : Key σ) (algorithm : JSONWebKeySignatureAlgorithm)
    (message : Bytes) (w : World σ) : (GoString × Option Error) × World σ :=
  match ComputeHash c algorithm message with
  | (_, some err) => (([], some err), w)
  | (digest, none) => k.signDigestToBase64RawURL algorithm digest w

/-- `Key.Sign` signs the message with the algorithm provided. -/
def Key.Sign {σ : Type} (c : Crypto) (k : Key σ) (algorithm : JSONWebKeySignatureAlgorithm)
    (message : Bytes) (w : World σ) : (Bytes × Option Error) × World σ :=
  match k.signToBase64RawURL c algorithm message w with
  | ((_, some err), w1) => (([], some err), w1)
  | ((sig, none), w1) => (Base64.DecodeString sig, w1)

/-- `Key.SignDigest` signs the message digest with the algorithm provided. -/
def Key.SignDigest {σ : Type} (k : Key σ) (algorithm : JSONWebKeySignatureAlgorithm)
    (digest : Bytes) (w : World σ) : (Bytes × Option Error) × World σ :=
  match k.signDigestToBase64RawURL algorithm digest w with
  | ((_, some err), w1) => (([], some err), w1)
  | ((sig, none), w1) => (Base64.DecodeString sig, w1)

/-- `Key.VerifyDigest` verifies the message digest with the algorithm provided
against the signature. -/
def Key.VerifyDigest {σ : Type} (k : Key σ) (algorithm : JSONWebKeySignatureAlgorithm)
    (digest signature : Bytes) (w : World σ) : Option Error × World σ :=
  let encodedDigest := Base64.EncodeToString digest
  let encodedSignature := Base64.EncodeToString signature
  let r := callVerify k.Client k.Context k.vaultBaseURL k.name k.version
    { Algorithm := algorithm, Digest := some encodedDigest, Signature := some encodedSignature } w
  match r.1.2 with
  | some err => (some err, r.2)
  | none =>
    match r.1.1.Value with
    | none => (some .ErrInvalidServerResponse, r.2)
    | some valid => if !valid then (some .ErrVerification, r.2) else (none, r.2)

/-- `Key.Verify` verifies the message with the algorithm provided against the
signature. -/
def Key.Verify {σ : Type} (c : Crypto) (k : Key σ) (algorithm : JSONWebKeySignatureAlgorithm)
    (message signature : Bytes) (w : World σ) : Option Error × World σ :=
  match ComputeHash c algorithm message with
  | (_, some err) => (some err, w)
  | (digest, none) => k.VerifyDigest algorithm digest signature w

/-! ## `method.go` -/

/-- `SigningMethod` for Azure Key Vault. -/
structure SigningMethod where
  algorithm : JSONWebKeySignatureAlgorithm
  deriving DecidableEq, Repr

/-- A value of type `interface{}` passed as the key of a signing method: a
`*Key` handle, the nil interface, or a value of any other dynamic type. -/
inductive KeyArg (σ : Type) where
  | key (k : Key σ)
  | nil
  | other (typeTag : Nat)

/-- `SigningMethod.Alg` identifies the signing / verification algorithm. -/
def SigningMethod.Alg (m : SigningMethod) : GoString := m.algorithm

/-- `SigningMethod.Sign` signs the signing string remotely. -/
def SigningMethod.Sign {σ : Type} (c : Crypto) (m : SigningMethod) (signingString : GoString)
    (key : KeyArg σ) (w : World σ) : (GoString × Option Error) × World σ :=
  match key with
  | .key k =>
    match k.Sign c m.algorithm signingString w with
    | ((_, some err), w1) => (([], some err), w1)
    | ((sig, none), w1) => ((Base64.EncodeToString sig, none), w1)
  | _ => (([], some .ErrInvalidKeyType), w)

/-- `SigningMethod.Verify` verifies the singing string against the signature
remotely. -/
def SigningMethod.Verify {σ : Type} (c : Crypto) (m : SigningMethod) (signingString signature : GoString)
    (key : KeyArg σ) (w : World σ) : Option Error × World σ :=
  match key with
  | .key k =>
    match Base64.DecodeString signature with
    | (_, some err) => (some err, w)
    | (sig, none) => k.Verify c m.algorithm signingString sig w
  | _ => (some .ErrInvalidKeyType, w)

/-! ## The message-level operations as the specification words them

Section 4.2 of the specification: `Sign` computes the digest with the
registry, propagates its failure, and otherwise delegates to `SignDigest`;
`Verify` does the same with `VerifyDigest`. -/

/-- `Sign` in the words of the specification: digest by the registry, failure
propagated, then `SignDigest`. -/
def Key.SignSpec {σ : Type} (c : Crypto) (k : Key σ) (algorithm : JSONWebKeySignatureAlgorithm)
    (message : Bytes) (w : World σ) : (Bytes × Option Error) × World σ :=
  match ComputeHash c algorithm message with
  | (_, some err) => (([], some err), w)
  | (digest, none) => k.SignDigest algorithm digest w

/-- `Verify` in the words of the specification: digest by the registry, failure
propagated, then `VerifyDigest`. -/
def Key.VerifySpec {σ : Type} (c : Crypto) (k : Key σ) (algorithm : JSONWebKeySignatureAlgorithm)
    (message signature : Bytes) (w : World σ) : Option Error × World σ :=
  match ComputeHash c algorithm message with
  | (_, some err) => (some err, w)
  | (digest, none) => k.VerifyDigest algorithm digest signature w

/-! ## Stubs used to exercise the operations on concrete inputs -/

/-- A stub client that answers every sign request with `signResponse` and every
verify request with `verifyResponse`, and counts its invocations in its
state. -/
def stubClient (signResponse : KeyOperationResult × Option Error)
    (verifyResponse : KeyVerifyResult × Option Error) : BaseClientAPI Nat where
  Sign := fun _ _ _ _ _ n => (signResponse, n + 1)
  Verify := fun _ _ _ _ _ n => (verifyResponse, n + 1)

/-- A stub client whose responses carry no field and no error. -/
def emptyClient : BaseClientAPI Nat :=
  stubClient ({ Kid := none, Result := none }, none) ({ Value := none }, none)

/-- A stand-in for the hash implementations: every hash is available and the
digest of a message is its first four bytes. -/
def stubCrypto : Crypto where
  Available := fun _ => true
  Write := fun _ _ => none
  Sum := fun _ m => m.take 4
  write_nil := fun _ _ => rfl

/-- The identifier used in the examples. -/
def exampleKeyID : GoString := str "https://vault.example/keys/mykey/abc123"

/-- The handle that `NewKey` builds from `exampleKeyID` for a given client. -/
def exampleKey (client : BaseClientAPI Nat) : Key Nat where
  Client := client
  Context := Context.Background
  id := exampleKeyID
  vaultBaseURL := str "https://vault.example"
  name := str "mykey"
  version := str "abc123"

/-- A stub that answers a sign request with the id of another key. -/
def mismatchClient : BaseClientAPI Nat :=
  stubClient
    ({ Kid := some (str "https://vault.example/keys/other/abc123"), Result := some (str "c2ln") }, none)
    ({ Value := none }, none)

/-- A stub that echoes the id of the example key, with the encoding of the
bytes `sig` as signature, and reports every signature valid. -/
def echoClient : BaseClientAPI Nat :=
  stubClient
    ({ Kid := some exampleKeyID, Result := some (Base64.EncodeToString (str "sig")) }, none)
    ({ Value := some true }, none)

/-- A stub that echoes the id of the example key but leaves the signature out,
and reports every signature invalid. -/
def missingClient : BaseClientAPI Nat :=
  stubClient ({ Kid := some exampleKeyID, Result := none }, none) ({ Value := some false }, none)

/-- A stub whose every request fails with a transport error, although the
response it returns next to the error is well formed. -/
def failingClient : BaseClientAPI Nat :=
  stubClient
    ({ Kid := some exampleKeyID, Result := some (Base64.EncodeToString (str "sig")) }, some (.other 503))
    ({ Value := some true }, some (.other 503))

/-- A stub that echoes the id of the example key with a signature payload that
is corrupt from its fifth byte on. -/
def corruptClient : BaseClientAPI Nat :=
  stubClient ({ Kid := some exampleKeyID, Result := some (str "c2ln!") }, none)
    ({ Value := some true }, none)

/-- The world before any invocation of the stub client. -/
def world0 : World Nat := { state := 0, trace := [] }

/-! # Theorems -/

/-! ## Base64: decoding inverts encoding -/

namespace Base64

theorem or_eq_add (x b k : Nat) (hx : x % 2 ^ k = 0) (hb : b < 2 ^ k) : x ||| b = x + b := by
  have h := Nat.mul_add_lt_is_or hb (x / 2 ^ k)
  have hx2 : 2 ^ k * (x / 2 ^ k) = x := by
    have := Nat.div_add_mod x (2 ^ k)
    omega
  rw [hx2] at h
  exact h.symm

theorem and_63 (x : Nat) : x &&& 0x3F = x % 64 := Nat.and_pow_two_sub_one_eq_mod x 6

theorem decodeMap_encode_fin : ∀ i : Fin 64, decodeMap (encode i.val) = i.val := by decide

theorem decodeMap_encode (i : Nat) (h : i < 64) : decodeMap (encode i) = i :=
  decodeMap_encode_fin ⟨i, h⟩

theorem assemble_three (b0 b1 b2 : Byte) :
    assemble [(b0.val <<< 16 ||| b1.val <<< 8 ||| b2.val) >>> 18 &&& 0x3F,
      (b0.val <<< 16 ||| b1.val <<< 8 ||| b2.val) >>> 12 &&& 0x3F,
      (b0.val <<< 16 ||| b1.val <<< 8 ||| b2.val) >>> 6 &&& 0x3F,
      (b0.val <<< 16 ||| b1.val <<< 8 ||| b2.val) &&& 0x3F] = [b0, b1, b2] := by
  have h0 := b0.isLt
  have h1 := b1.isLt
  have h2 := b2.isLt
  have e1 : b0.val <<< 16 ||| b1.val <<< 8 = b0.val * 65536 + b1.val * 256 := by
    rw [Nat.shiftLeft_eq, Nat.shiftLeft_eq, or_eq_add _ _ 16 (by omega) (by omega)]
  have e2 : b0.val <<< 16 ||| b1.val <<< 8 ||| b2.val = b0.val * 65536 + b1.val * 256 + b2.val := by
    rw [e1, or_eq_add _ _ 8 (by omega) (by omega)]
  rw [e2]
  generalize hv : b0.val * 65536 + b1.val * 256 + b2.val = v
  simp only [assemble, and_63, Nat.shiftRight_eq_div_pow, Nat.shiftLeft_eq, List.getD_cons_zero,
    List.getD_cons_succ, List.length_cons, List.length_nil]
  have e3 : v / 2 ^ 18 % 64 * 2 ^ 18 ||| v / 2 ^ 12 % 64 * 2 ^ 12 = v / 2 ^ 18 % 64 * 2 ^ 18 + v / 2 ^ 12 % 64 * 2 ^ 12 :=
    or_eq_add _ _ 18 (by omega) (by omega)
  have e4 : v / 2 ^ 18 % 64 * 2 ^ 18 + v / 2 ^ 12 % 64 * 2 ^ 12 ||| v / 2 ^ 6 % 64 * 2 ^ 6
      = v / 2 ^ 18 % 64 * 2 ^ 18 + v / 2 ^ 12 % 64 * 2 ^ 12 + v / 2 ^ 6 % 64 * 2 ^ 6 :=
    or_eq_add _ _ 12 (by omega) (by omega)
  have e5 : v / 2 ^ 18 % 64 * 2 ^ 18 + v / 2 ^ 12 % 64 * 2 ^ 12 + v / 2 ^ 6 % 64 * 2 ^ 6 ||| v % 64
      = v / 2 ^ 18 % 64 * 2 ^ 18 + v / 2 ^ 12 % 64 * 2 ^ 12 + v / 2 ^ 6 % 64 * 2 ^ 6 + v % 64 :=
    or_eq_add _ _ 6 (by omega) (by omega)
  rw [e3, e4, e5]
  simp only [toByte, List.take, Nat.reduceAdd, Nat.reduceSub, List.cons.injEq, and_true]
  refine ⟨Fin.ext ?_, Fin.ext ?_, Fin.ext ?_⟩ <;> simp only [] <;> omega


theorem assemble_two (b0 b1 : Byte) :
    assemble [(b0.val <<< 16 ||| b1.val <<< 8) >>> 18 &&& 0x3F,
      (b0.val <<< 16 ||| b1.val <<< 8) >>> 12 &&& 0x3F,
      (b0.val <<< 16 ||| b1.val <<< 8) >>> 6 &&& 0x3F] = [b0, b1] := by
  have h0 := b0.isLt
  have h1 := b1.isLt
  have e1 : b0.val <<< 16 ||| b1.val <<< 8 = b0.val * 65536 + b1.val * 256 := by
    rw [Nat.shiftLeft_eq, Nat.shiftLeft_eq, or_eq_add _ _ 16 (by omega) (by omega)]
  rw [e1]
  generalize hv : b0.val * 65536 + b1.val * 256 = v
  simp only [assemble, and_63, Nat.shiftRight_eq_div_pow, Nat.shiftLeft_eq, List.getD_cons_zero,
    List.getD_cons_succ, List.length_cons, List.length_nil, List.getD_nil]
  have e3 : v / 2 ^ 18 % 64 * 2 ^ 18 ||| v / 2 ^ 12 % 64 * 2 ^ 12 = v / 2 ^ 18 % 64 * 2 ^ 18 + v / 2 ^ 12 % 64 * 2 ^ 12 :=
    or_eq_add _ _ 18 (by omega) (by omega)
  have e4 : v / 2 ^ 18 % 64 * 2 ^ 18 + v / 2 ^ 12 % 64 * 2 ^ 12 ||| v / 2 ^ 6 % 64 * 2 ^ 6
      = v / 2 ^ 18 % 64 * 2 ^ 18 + v / 2 ^ 12 % 64 * 2 ^ 12 + v / 2 ^ 6 % 64 * 2 ^ 6 :=
    or_eq_add _ _ 12 (by omega) (by omega)
  rw [e3, e4, Nat.or_zero]
  simp only [toByte, List.take, Nat.reduceAdd, Nat.reduceSub, List.cons.injEq, and_true]
  refine ⟨Fin.ext ?_, Fin.ext ?_⟩ <;> simp only [] <;> omega

theorem assemble_one (b0 : Byte) :
    assemble [(b0.val <<< 16) >>> 18 &&& 0x3F, (b0.val <<< 16) >>> 12 &&& 0x3F] = [b0] := by
  have h0 := b0.isLt
  simp only [assemble, and_63, Nat.shiftRight_eq_div_pow, Nat.shiftLeft_eq, List.getD_cons_zero,
    List.getD_cons_succ, List.length_cons, List.length_nil, List.getD_nil]
  generalize hv : b0.val * 2 ^ 16 = v
  have e3 : v / 2 ^ 18 % 64 * 2 ^ 18 ||| v / 2 ^ 12 % 64 * 2 ^ 12 = v / 2 ^ 18 % 64 * 2 ^ 18 + v / 2 ^ 12 % 64 * 2 ^ 12 :=
    or_eq_add _ _ 18 (by omega) (by omega)
  rw [e3]
  simp only [Nat.zero_mul, Nat.or_zero]
  simp only [toByte, List.take, Nat.reduceAdd, Nat.reduceSub, List.cons.injEq, and_true]
  refine Fin.ext ?_
  simp only []
  omega

theorem sextet_lt (x : Nat) : x &&& 0x3F < 64 := by
  rw [and_63]
  omega

theorem decodeMap_sextet (x : Nat) : decodeMap (encode (x &&& 0x3F)) = (x &&& 0x3F) :=
  decodeMap_encode _ (sextet_lt x)

theorem decodeQuantum_step (x : Nat) (src : List Byte) (si : Nat) (dbuf : List Nat)
    (h : dbuf.length < 4) :
    decodeQuantum (encode (x &&& 0x3F) :: src) si dbuf
      = decodeQuantum src (si + 1) (dbuf ++ [x &&& 0x3F]) := by
  have h1 : dbuf.length ≠ 4 := by omega
  have h2 : (x &&& 0x3F) ≠ 0xff := by
    have := sextet_lt x
    omega
  rw [decodeQuantum, if_neg h1]
  simp only [decodeMap_sextet]
  rw [if_pos h2]

theorem decodeQuantum_full (src : List Byte) (si : Nat) (dbuf : List Nat) (h : dbuf.length = 4) :
    decodeQuantum src si dbuf = ⟨src, si, assemble dbuf, none⟩ := by
  cases src <;> simp [decodeQuantum, h]

theorem decodeQuantum_four (i0 i1 i2 i3 : Nat) (rest : List Byte) (si : Nat) :
    decodeQuantum (encode (i0 &&& 0x3F) :: encode (i1 &&& 0x3F) :: encode (i2 &&& 0x3F) ::
        encode (i3 &&& 0x3F) :: rest) si []
      = ⟨rest, si + 4, assemble [i0 &&& 0x3F, i1 &&& 0x3F, i2 &&& 0x3F, i3 &&& 0x3F], none⟩ := by
  rw [decodeQuantum_step _ _ _ _ (by simp), decodeQuantum_step _ _ _ _ (by simp),
    decodeQuantum_step _ _ _ _ (by simp), decodeQuantum_step _ _ _ _ (by simp),
    decodeQuantum_full _ _ _ (by simp)]
  simp

theorem decodeQuantum_three (i0 i1 i2 : Nat) (si : Nat) :
    decodeQuantum [encode (i0 &&& 0x3F), encode (i1 &&& 0x3F), encode (i2 &&& 0x3F)] si []
      = ⟨[], si + 3, assemble [i0 &&& 0x3F, i1 &&& 0x3F, i2 &&& 0x3F], none⟩ := by
  rw [decodeQuantum_step _ _ _ _ (by simp), decodeQuantum_step _ _ _ _ (by simp),
    decodeQuantum_step _ _ _ _ (by simp)]
  simp [decodeQuantum]

theorem decodeQuantum_two (i0 i1 : Nat) (si : Nat) :
    decodeQuantum [encode (i0 &&& 0x3F), encode (i1 &&& 0x3F)] si []
      = ⟨[], si + 2, assemble [i0 &&& 0x3F, i1 &&& 0x3F], none⟩ := by
  rw [decodeQuantum_step _ _ _ _ (by simp), decodeQuantum_step _ _ _ _ (by simp)]
  simp [decodeQuantum]

theorem decodeLoop_Encode (b : Bytes) :
    ∀ (fuel si : Nat), (Encode b).length ≤ fuel → decodeLoop fuel (Encode b) si = (b, none) := by
  induction b using Encode.induct with
  | case1 b0 b1 b2 rest ih =>
    intro fuel si hf
    cases fuel with
    | zero => simp [Encode] at hf
    | succ fuel =>
      simp only [Encode, List.length_cons] at hf
      simp only [Encode, decodeLoop, decodeQuantum_four, assemble_three]
      rw [ih fuel (si + 4) (by omega)]
      simp
  | case2 b0 b1 =>
    intro fuel si hf
    cases fuel with
    | zero => simp [Encode] at hf
    | succ fuel =>
      simp only [Encode, decodeLoop, decodeQuantum_three, assemble_two]
      cases fuel <;> simp [decodeLoop]
  | case3 b0 =>
    intro fuel si hf
    cases fuel with
    | zero => simp [Encode] at hf
    | succ fuel =>
      simp only [Encode, decodeLoop, decodeQuantum_two, assemble_one]
      cases fuel <;> simp [decodeLoop]
  | case4 =>
    intro fuel si _
    cases fuel <;> simp [Encode, decodeLoop]

/-- Decoding the unpadded base64url encoding of `b` gives back `b`, without error. -/
theorem DecodeString_EncodeToString (b : Bytes) : DecodeString (EncodeToString b) = (b, none) :=
  decodeLoop_Encode b _ 0 (Nat.le_refl _)

/-- A quantum never leaves more input than it was given. -/
theorem decodeQuantum_rest_le (src : List Byte) :
    ∀ (si : Nat) (dbuf : List Nat), (decodeQuantum src si dbuf).rest.length ≤ src.length := by
  induction src with
  | nil =>
    intro si dbuf
    simp only [decodeQuantum]
    split
    · simp
    · split
      · simp
      · split <;> simp
  | cons c src ih =>
    intro si dbuf
    simp only [decodeQuantum]
    split
    · simp
    · split
      · exact Nat.le_succ_of_le (ih _ _)
      · split
        · exact Nat.le_succ_of_le (ih _ _)
        · simp

/-- A quantum started on non-empty input reads at least one byte. -/
theorem decodeQuantum_rest_lt (c : Byte) (src : List Byte) (si : Nat) :
    (decodeQuantum (c :: src) si []).rest.length ≤ src.length := by
  have h4 : ¬ (([] : List Nat).length = 4) := by decide
  simp only [decodeQuantum, h4, if_false]
  split
  · exact decodeQuantum_rest_le _ _ _
  · split
    · exact decodeQuantum_rest_le _ _ _
    · simp

/-- The loop of `Decode` ends within `len(src)` quanta: more fuel changes
nothing. -/
theorem decodeLoop_fuel (fuel : Nat) :
    ∀ (fuel2 : Nat) (src : List Byte) (si : Nat), src.length ≤ fuel → src.length ≤ fuel2 →
      decodeLoop fuel src si = decodeLoop fuel2 src si := by
  induction fuel with
  | zero =>
    intro fuel2 src si h1 _
    have hs : src = [] := List.length_eq_zero.mp (Nat.le_zero.mp h1)
    subst hs
    cases fuel2 <;> simp [decodeLoop]
  | succ fuel ih =>
    intro fuel2 src si h1 h2
    cases src with
    | nil => cases fuel2 <;> simp [decodeLoop]
    | cons c src =>
      cases fuel2 with
      | zero => simp at h2
      | succ fuel2 =>
        have hl := decodeQuantum_rest_lt c src si
        simp only [List.length_cons] at h1 h2
        simp only [decodeLoop]
        rw [ih fuel2 (decodeQuantum (c :: src) si []).rest (decodeQuantum (c :: src) si []).nsi
          (by omega) (by omega)]

theorem decodeQuantum_accepts (src : List Byte) :
    ∀ (si : Nat) (dbuf : List Nat), dbuf.length ≤ 4 →
      (((decodeQuantum src si dbuf).err = none ∧ accepts (decodeQuantum src si dbuf).rest 0 = true)
        ↔ accepts src (dbuf.length % 4) = true) := by
  induction src with
  | nil =>
    intro si dbuf hl
    simp only [decodeQuantum]
    by_cases h4 : dbuf.length = 4
    · simp [h4, accepts]
    · by_cases h0 : dbuf.length = 0
      · simp [h0, accepts]
      · by_cases h1 : dbuf.length = 1
        · simp [h1, accepts]
        · have hm : dbuf.length % 4 = dbuf.length := Nat.mod_eq_of_lt (by omega)
          simp [h4, h0, h1, accepts, hm]
  | cons c src ih =>
    intro si dbuf hl
    simp only [decodeQuantum]
    by_cases h4 : dbuf.length = 4
    · simp [h4]
    · have hm : dbuf.length % 4 = dbuf.length := Nat.mod_eq_of_lt (by omega)
      rw [if_neg h4, hm]
      by_cases hv : decodeMap c ≠ 0xff
      · rw [if_pos hv]
        have := ih (si + 1) (dbuf ++ [decodeMap c]) (by simp; omega)
        rw [this]
        simp [accepts, hv]
      · rw [if_neg hv]
        by_cases hs : c = byte '\n' ∨ c = byte '\r'
        · rw [if_pos hs]
          have := ih (si + 1) dbuf hl
          rw [this, hm]
          simp only [accepts, hv, hs, if_false, if_true]
        · rw [if_neg hs]
          simp only [accepts, hv, hs, if_false]
          simp

theorem decodeLoop_accepts (fuel : Nat) :
    ∀ (src : List Byte) (si : Nat), src.length ≤ fuel →
      ((decodeLoop fuel src si).2 = none ↔ accepts src 0 = true) := by
  induction fuel with
  | zero =>
    intro src si h
    have hs : src = [] := List.length_eq_zero.mp (Nat.le_zero.mp h)
    subst hs
    simp [decodeLoop, accepts]
  | succ fuel ih =>
    intro src si h
    cases src with
    | nil => simp [decodeLoop, accepts]
    | cons c src =>
      have hq := decodeQuantum_accepts (c :: src) si [] (by simp)
      have hl := decodeQuantum_rest_lt c src si
      simp only [List.length_cons] at h
      simp only [List.length_nil, Nat.zero_mod] at hq
      simp only [decodeLoop]
      by_cases he : (decodeQuantum (c :: src) si []).err = none
      · have hi := ih (decodeQuantum (c :: src) si []).rest (decodeQuantum (c :: src) si []).nsi
          (by omega)
        simp only [he, ne_eq, not_true_eq_false, if_false, reduceCtorEq]
        rw [← hq, hi]
        simp [he]
      · have hne : ¬ accepts (c :: src) 0 = true := by
          intro ha
          exact he (hq.mpr ha).1
        simp [he, hne]

theorem accepts_iff (src : List Byte) :
    ∀ j : Nat, j < 4 →
      (accepts src j = true ↔
        (∀ b ∈ src, decodeMap b ≠ 0xff ∨ b = byte '\n' ∨ b = byte '\r') ∧
          (j + (src.filter (fun b => decide (decodeMap b ≠ 0xff))).length) % 4 ≠ 1) := by
  induction src with
  | nil =>
    intro j hj
    have hm : j % 4 = j := Nat.mod_eq_of_lt hj
    simp [accepts, hm]
  | cons c src ih =>
    intro j hj
    simp only [accepts]
    by_cases hv : decodeMap c ≠ 0xff
    · rw [if_pos hv, ih ((j + 1) % 4) (Nat.mod_lt _ (by decide))]
      have hf : (c :: src).filter (fun b => decide (decodeMap b ≠ 0xff))
          = c :: src.filter (fun b => decide (decodeMap b ≠ 0xff)) :=
        List.filter_cons_of_pos (by simp [hv])
      rw [hf]
      simp only [List.mem_cons, forall_eq_or_imp, hv, ne_eq, not_false_eq_true, true_or, true_and,
        List.length_cons]
      have : ∀ n : Nat, ((j + 1) % 4 + n) % 4 = (j + (n + 1)) % 4 := by
        intro n
        omega
      rw [this]
    · rw [if_neg hv]
      have hf : (c :: src).filter (fun b => decide (decodeMap b ≠ 0xff))
          = src.filter (fun b => decide (decodeMap b ≠ 0xff)) :=
        List.filter_cons_of_neg (by simp [hv])
      rw [hf]
      by_cases hs : c = byte '\n' ∨ c = byte '\r'
      · rw [if_pos hs, ih j hj]
        simp only [List.mem_cons, forall_eq_or_imp, hs, or_true, true_and]
      · rw [if_neg hs]
        simp only [Bool.false_eq_true, List.mem_cons, forall_eq_or_imp, hv, hs, or_self,
          false_and]

/-- The strings that `DecodeString` decodes without error: every byte is of the
alphabet or a newline or carriage return, and the number of bytes of the
alphabet is not 1 modulo 4. -/
theorem DecodeString_ok_iff (s : GoString) :
    (DecodeString s).2 = none ↔
      (∀ b ∈ s, decodeMap b ≠ 0xff ∨ b = byte '\n' ∨ b = byte '\r') ∧
        (s.filter (fun b => decide (decodeMap b ≠ 0xff))).length % 4 ≠ 1 := by
  unfold DecodeString
  rw [decodeLoop_accepts s.length s 0 (Nat.le_refl _), accepts_iff s 0 (by decide)]
  simp

theorem decodeMap_newline : decodeMap (byte '\n') = 0xff ∧ decodeMap (byte '\r') = 0xff := by
  decide

theorem not_newline_of_valid (c : Byte) (hv : decodeMap c ≠ 0xff) :
    ¬ (c = byte '\n' ∨ c = byte '\r') := by
  intro h
  rcases h with h | h
  · exact hv (h ▸ decodeMap_newline.1)
  · exact hv (h ▸ decodeMap_newline.2)

theorem stripNewlines_cons_keep (c : Byte) (src : List Byte)
    (h : ¬ (c = byte '\n' ∨ c = byte '\r')) :
    stripNewlines (c :: src) = c :: stripNewlines src := by
  unfold stripNewlines
  exact List.filter_cons_of_pos (by simp [h])

theorem stripNewlines_cons_skip (c : Byte) (src : List Byte)
    (h : c = byte '\n' ∨ c = byte '\r') :
    stripNewlines (c :: src) = stripNewlines src := by
  unfold stripNewlines
  exact List.filter_cons_of_neg (by simp [h])

theorem accepts_stripNewlines (src : List Byte) :
    ∀ j : Nat, j < 4 →
      (accepts src j = true ↔
        (∀ b ∈ stripNewlines src, decodeMap b ≠ 0xff) ∧
          (j + (stripNewlines src).length) % 4 ≠ 1) := by
  induction src with
  | nil =>
    intro j hj
    have hm : j % 4 = j := Nat.mod_eq_of_lt hj
    simp [accepts, stripNewlines, hm]
  | cons c src ih =>
    intro j hj
    simp only [accepts]
    by_cases hv : decodeMap c ≠ 0xff
    · rw [if_pos hv, ih ((j + 1) % 4) (Nat.mod_lt _ (by decide)),
        stripNewlines_cons_keep c src (not_newline_of_valid c hv)]
      simp only [List.mem_cons, forall_eq_or_imp, hv, ne_eq, not_false_eq_true, true_and,
        List.length_cons]
      have : ∀ n : Nat, ((j + 1) % 4 + n) % 4 = (j + (n + 1)) % 4 := by
        intro n
        omega
      rw [this]
    · rw [if_neg hv]
      by_cases hs : c = byte '\n' ∨ c = byte '\r'
      · rw [if_pos hs, ih j hj, stripNewlines_cons_skip c src hs]
      · rw [if_neg hs, stripNewlines_cons_keep c src hs]
        simp only [Bool.false_eq_true, List.mem_cons, forall_eq_or_imp, hv, false_and]

/-- The decoder accepts a string exactly when the string, with its newlines and
carriage returns removed, is unpadded base64url text. -/
theorem DecodeString_ok_iff_isRawURL (s : GoString) :
    (DecodeString s).2 = none ↔ isRawURL (stripNewlines s) = true := by
  unfold DecodeString
  rw [decodeLoop_accepts s.length s 0 (Nat.le_refl _), accepts_stripNewlines s 0 (by decide)]
  simp [isRawURL]

theorem decodeQuantum_stripNewlines (src : List Byte) :
    ∀ (si si2 : Nat) (dbuf : List Nat), (decodeQuantum src si dbuf).err = none →
      (decodeQuantum (stripNewlines src) si2 dbuf).err = none ∧
        (decodeQuantum (stripNewlines src) si2 dbuf).out = (decodeQuantum src si dbuf).out ∧
        (decodeQuantum (stripNewlines src) si2 dbuf).rest
          = stripNewlines (decodeQuantum src si dbuf).rest := by
  induction src with
  | nil =>
    intro si si2 dbuf h
    have hn : stripNewlines [] = [] := rfl
    rw [hn]
    simp only [decodeQuantum] at h ⊢
    by_cases h4 : dbuf.length = 4
    · simp [h4, hn]
    · by_cases h0 : dbuf.length = 0
      · simp [h0, hn]
      · by_cases h1 : dbuf.length = 1
        · simp [h1] at h
        · simp [h4, h0, h1, hn]
  | cons c src ih =>
    intro si si2 dbuf h
    by_cases h4 : dbuf.length = 4
    · rw [decodeQuantum_full _ _ _ h4, decodeQuantum_full _ _ _ h4]
      exact ⟨rfl, rfl, rfl⟩
    · by_cases hv : decodeMap c ≠ 0xff
      · rw [stripNewlines_cons_keep c src (not_newline_of_valid c hv)]
        simp only [decodeQuantum, h4, hv, if_false, ne_eq, not_false_eq_true, if_true] at h ⊢
        exact ih (si + 1) (si2 + 1) _ h
      · by_cases hs : c = byte '\n' ∨ c = byte '\r'
        · rw [stripNewlines_cons_skip c src hs]
          simp only [decodeQuantum, h4, hv, hs, if_false, if_true] at h
          have e : decodeQuantum (c :: src) si dbuf = decodeQuantum src (si + 1) dbuf := by
            simp only [decodeQuantum, h4, hv, hs, if_false, if_true]
          rw [e]
          exact ih (si + 1) si2 dbuf h
        · simp only [decodeQuantum, h4, hv, hs, if_false] at h
          exact absurd h (by simp)

theorem decodeLoop_nil (fuel si : Nat) : decodeLoop fuel [] si = ([], none) := by
  cases fuel <;> simp [decodeLoop]

theorem decodeLoop_stripNewlines (fuel : Nat) :
    ∀ (fuel2 : Nat) (src : List Byte) (si si2 : Nat), src.length ≤ fuel →
      (stripNewlines src).length ≤ fuel2 → (decodeLoop fuel src si).2 = none →
      decodeLoop fuel2 (stripNewlines src) si2 = decodeLoop fuel src si := by
  induction fuel with
  | zero =>
    intro fuel2 src si si2 h1 _ _
    have hs : src = [] := List.length_eq_zero.mp (Nat.le_zero.mp h1)
    subst hs
    have hn : stripNewlines [] = [] := rfl
    rw [hn, decodeLoop_nil, decodeLoop_nil]
  | succ fuel ih =>
    intro fuel2 src si si2 h1 h2 hok
    cases src with
    | nil =>
      have hn : stripNewlines [] = [] := rfl
      rw [hn, decodeLoop_nil, decodeLoop_nil]
    | cons c t =>
      simp only [List.length_cons] at h1
      have hl := decodeQuantum_rest_lt c t si
      simp only [decodeLoop, reduceCtorEq, if_false] at hok ⊢
      by_cases he : (decodeQuantum (c :: t) si []).err = none
      · simp only [he, ne_eq, not_true_eq_false, if_false] at hok ⊢
        obtain ⟨q1, q2, q3⟩ := decodeQuantum_stripNewlines (c :: t) si si2 [] he
        cases hstrip : stripNewlines (c :: t) with
        | nil =>
          rw [hstrip] at q2 q3
          have hq : decodeQuantum [] si2 [] = ⟨[], si2, [], none⟩ := by simp [decodeQuantum]
          rw [hq] at q2 q3
          simp only at q2 q3
          have hi := ih 0 (decodeQuantum (c :: t) si []).rest (decodeQuantum (c :: t) si []).nsi 0
            (by omega) (by rw [← q3]; simp) hok
          rw [← q3, decodeLoop_nil] at hi
          rw [decodeLoop_nil, ← q2, ← hi]
          rfl
        | cons c2 t2 =>
          rw [hstrip] at q1 q2 q3 h2
          cases fuel2 with
          | zero => simp at h2
          | succ fuel2 =>
            simp only [List.length_cons] at h2
            have hl2 := decodeQuantum_rest_lt c2 t2 si2
            simp only [decodeLoop, reduceCtorEq, if_false, q1, ne_eq, not_true_eq_false]
            rw [q3] at hl2 ⊢
            rw [ih fuel2 (decodeQuantum (c :: t) si []).rest (decodeQuantum (c :: t) si []).nsi
              (decodeQuantum (c2 :: t2) si2 []).nsi (by omega) (by omega) hok, q2]
      · simp only [he, ne_eq, not_false_eq_true, if_true] at hok

/-- Newlines and carriage returns do not change what is decoded: a string that
the decoder accepts decodes to the same bytes as the string without them. -/
theorem DecodeString_stripNewlines (s : GoString) (h : (DecodeString s).2 = none) :
    DecodeString (stripNewlines s) = DecodeString s :=
  decodeLoop_stripNewlines s.length (stripNewlines s).length s 0 0 (Nat.le_refl _) (Nat.le_refl _) h

end Base64


/-! ## Splitting a path into segments -/

namespace Strings

theorem Split_ne_nil (s : GoString) (sep : Byte) : Split s sep ≠ [] := by
  cases s with
  | nil => simp [Split]
  | cons c s =>
    simp only [Split]
    split
    · simp
    · split <;> simp

theorem Split_no_sep (a : GoString) (sep : Byte) (h : sep ∉ a) : Split a sep = [a] := by
  induction a with
  | nil => simp [Split]
  | cons c a ih =>
    simp only [List.mem_cons, not_or] at h
    have hc : c ≠ sep := fun e => h.1 e.symm
    simp [Split, hc, ih h.2]

theorem Split_append (a t : GoString) (sep : Byte) (h : sep ∉ a) :
    Split (a ++ sep :: t) sep = a :: Split t sep := by
  induction a with
  | nil => simp [Split]
  | cons c a ih =>
    simp only [List.mem_cons, not_or] at h
    have hc : c ≠ sep := fun e => h.1 e.symm
    simp [Split, hc, ih h.2]

theorem Split_cons_inv (s : GoString) (sep : Byte) :
    ∀ (p : GoString) (ps : List GoString), Split s sep = p :: ps →
      sep ∉ p ∧ ((ps = [] ∧ s = p) ∨ (∃ t, s = p ++ sep :: t ∧ Split t sep = ps)) := by
  induction s with
  | nil =>
    intro p ps h
    simp only [Split, List.cons.injEq] at h
    obtain ⟨h1, h2⟩ := h
    subst h1
    subst h2
    simp
  | cons c s ih =>
    intro p ps h
    simp only [Split] at h
    by_cases hc : c = sep
    · rw [if_pos hc] at h
      simp only [List.cons.injEq] at h
      obtain ⟨h1, h2⟩ := h
      subst h1
      refine ⟨by simp, Or.inr ⟨s, by simp [hc], h2⟩⟩
    · rw [if_neg hc] at h
      cases hs : Split s sep with
      | nil => exact absurd hs (Split_ne_nil s sep)
      | cons q qs =>
        rw [hs] at h
        simp only [List.cons.injEq] at h
        obtain ⟨h1, h2⟩ := h
        subst h1
        subst h2
        obtain ⟨hq, hrest⟩ := ih q qs hs
        refine ⟨?_, ?_⟩
        · simp only [List.mem_cons, not_or]
          exact ⟨fun e => hc e.symm, hq⟩
        · rcases hrest with ⟨h1, h2⟩ | ⟨t, h1, h2⟩
          · exact Or.inl ⟨h1, by rw [h2]⟩
          · exact Or.inr ⟨t, by rw [h1]; simp, h2⟩

theorem Split_three_inv (s : GoString) (sep : Byte) (a b c : GoString)
    (h : Split s sep = [a, b, c]) :
    s = a ++ sep :: (b ++ sep :: c) ∧ sep ∉ a ∧ sep ∉ b ∧ sep ∉ c := by
  obtain ⟨ha, h1⟩ := Split_cons_inv s sep a [b, c] h
  rcases h1 with ⟨h1, _⟩ | ⟨t, hs, ht⟩
  · simp at h1
  obtain ⟨hb, h2⟩ := Split_cons_inv t sep b [c] ht
  rcases h2 with ⟨h2, _⟩ | ⟨t2, hs2, ht2⟩
  · simp at h2
  obtain ⟨hc, h3⟩ := Split_cons_inv t2 sep c [] ht2
  rcases h3 with ⟨_, h3⟩ | ⟨t3, _, ht3⟩
  · subst h3
    subst hs2
    exact ⟨hs, ha, hb, hc⟩
  · exact absurd ht3 (Split_ne_nil t3 sep)

theorem Split_three (a b c : GoString) (sep : Byte) (ha : sep ∉ a) (hb : sep ∉ b) (hc : sep ∉ c) :
    Split (a ++ sep :: (b ++ sep :: c)) sep = [a, b, c] := by
  rw [Split_append a _ sep ha, Split_append b _ sep hb, Split_no_sep c sep hc]

theorem TrimPrefix_cases (p pre : GoString) :
    p = pre ++ TrimPrefix p pre ∨ (TrimPrefix p pre = p ∧ HasPrefix p pre = false) := by
  unfold TrimPrefix
  cases h : HasPrefix p pre with
  | false => exact Or.inr ⟨by simp, rfl⟩
  | true =>
    left
    simp only [if_true]
    have hp : pre <+: p := List.isPrefixOf_iff_prefix.mp h
    obtain ⟨t, ht⟩ := hp
    rw [← ht]
    simp

theorem str_slash : str "/" = [byte '/'] := by decide

theorem keys_path_eq (n v : GoString) :
    str "keys/" ++ n ++ str "/" ++ v = str "keys" ++ byte '/' :: (n ++ byte '/' :: v) := by
  have h1 : str "keys/" = str "keys" ++ [byte '/'] := by decide
  rw [h1, str_slash]
  simp

theorem slash_keys_path_eq (n v : GoString) :
    str "/keys/" ++ n ++ str "/" ++ v = byte '/' :: (str "keys/" ++ n ++ str "/" ++ v) := by
  have h1 : str "/keys/" = byte '/' :: str "keys/" := by decide
  rw [h1]
  simp

/-- The segments of a path of the shape `/keys/<n>/<v>` or `keys/<n>/<v>`. -/
theorem Split_keys_path (path n v : GoString)
    (hpath : path = str "/keys/" ++ n ++ str "/" ++ v ∨ path = str "keys/" ++ n ++ str "/" ++ v)
    (hn : byte '/' ∉ n) (hv : byte '/' ∉ v) :
    Split (TrimPrefix path (str "/")) (byte '/') = [str "keys", n, v] := by
  have hk : byte '/' ∉ str "keys" := by decide
  have ht : TrimPrefix path (str "/") = str "keys" ++ byte '/' :: (n ++ byte '/' :: v) := by
    rcases hpath with h | h
    · rw [h, slash_keys_path_eq, keys_path_eq, str_slash]
      simp [TrimPrefix, HasPrefix]
    · rw [h, keys_path_eq, str_slash]
      have hne : HasPrefix (str "keys" ++ byte '/' :: (n ++ byte '/' :: v)) [byte '/'] = false := by
        have h2 : str "keys" = byte 'k' :: str "eys" := by decide
        rw [h2]
        simp only [HasPrefix, List.cons_append, List.isPrefixOf]
        have : (byte '/' == byte 'k') = false := by decide
        simp [this]
      simp [TrimPrefix, hne]
  rw [ht]
  exact Split_three _ _ _ _ hk hn hv

/-- A path whose segments are `keys`, `n`, `v` has the shape `/keys/<n>/<v>` or
`keys/<n>/<v>`. -/
theorem keys_path_of_Split (path n v : GoString)
    (h : Split (TrimPrefix path (str "/")) (byte '/') = [str "keys", n, v]) :
    (path = str "/keys/" ++ n ++ str "/" ++ v ∨ path = str "keys/" ++ n ++ str "/" ++ v) ∧
      byte '/' ∉ n ∧ byte '/' ∉ v := by
  obtain ⟨ht, _, hn, hv⟩ := Split_three_inv _ _ _ _ _ h
  refine ⟨?_, hn, hv⟩
  rcases TrimPrefix_cases path (str "/") with h1 | ⟨h1, _⟩
  · left
    rw [slash_keys_path_eq, keys_path_eq, ← ht]
    rw [str_slash] at h1
    exact h1
  · right
    rw [keys_path_eq, ← ht, h1]

end Strings

open Strings

/-- The segments that `NewKeyWithContext` reads off a parsed URL. -/
theorem NewKeyWithContext_eq {σ : Type} (ctx : Context) (client : BaseClientAPI σ) (keyID : GoString) :
    NewKeyWithContext ctx client keyID =
      match Url.Parse keyID with
      | .error _ => .error .ErrInvalidKey
      | .ok keyURL =>
        match Split (TrimPrefix keyURL.Path (str "/")) (byte '/') with
        | [p0, p1, p2] =>
          if p0 = str "keys" then
            .ok { Client := client, Context := ctx, id := keyID,
                  vaultBaseURL := keyURL.Scheme ++ str "://" ++ keyURL.Host, name := p1, version := p2 }
          else .error .ErrInvalidKey
        | _ => .error .ErrInvalidKey := by
  unfold NewKeyWithContext
  cases Url.Parse keyID with
  | error e => rfl
  | ok u =>
    simp only
    rcases Split (TrimPrefix u.Path (str "/")) (byte '/') with _ | ⟨p0, _ | ⟨p1, _ | ⟨p2, _ | ⟨p3, ps⟩⟩⟩⟩
    · simp
    · simp
    · simp
    · by_cases h : p0 = str "keys" <;> simp [h]
    · simp


/-! ## The handle built by `NewKeyWithContext` -/

theorem NewKeyWithContext_ok_inv {σ : Type} (ctx : Context) (client : BaseClientAPI σ)
    (keyID : GoString) (k : Key σ) (h : NewKeyWithContext ctx client keyID = .ok k) :
    ∃ u, Url.Parse keyID = .ok u ∧
      Split (TrimPrefix u.Path (str "/")) (byte '/') = [str "keys", k.name, k.version] ∧
      k = { Client := client, Context := ctx, id := keyID,
            vaultBaseURL := u.Scheme ++ str "://" ++ u.Host, name := k.name, version := k.version } := by
  rw [NewKeyWithContext_eq] at h
  cases hp : Url.Parse keyID with
  | error e => simp [hp] at h
  | ok u =>
    rw [hp] at h
    simp only at h
    rcases hs : Split (TrimPrefix u.Path (str "/")) (byte '/') with
      _ | ⟨p0, _ | ⟨p1, _ | ⟨p2, _ | ⟨p3, ps⟩⟩⟩⟩
    · simp [hs] at h
    · simp [hs] at h
    · simp [hs] at h
    · rw [hs] at h
      simp only at h
      by_cases h0 : p0 = str "keys"
      · rw [if_pos h0] at h
        have hk := Except.ok.inj h
        subst hk
        exact ⟨u, rfl, by rw [hs, h0], rfl⟩
      · rw [if_neg h0] at h
        simp at h
    · simp [hs] at h

theorem NewKeyWithContext_ok_id {σ : Type} (ctx : Context) (client : BaseClientAPI σ)
    (keyID : GoString) (k : Key σ) (h : NewKeyWithContext ctx client keyID = .ok k) :
    k.id = keyID := by
  obtain ⟨u, _, _, hk⟩ := NewKeyWithContext_ok_inv ctx client keyID k h
  rw [hk]

theorem exampleKey_eq (client : BaseClientAPI Nat) :
    NewKeyWithContext Context.Background client exampleKeyID = .ok (exampleKey client) := rfl

/-! ## Signing: validation of the response -/

/-- What `signDigestToBase64RawURL` returns when the client answers `(res, none)`. -/
theorem Key.signDigestToBase64RawURL_of_response {σ : Type} (k : Key σ)
    (algorithm : JSONWebKeySignatureAlgorithm) (digest : Bytes) (w : World σ)
    (res : KeyOperationResult) (s : σ)
    (hres : k.Client.Sign k.Context k.vaultBaseURL k.name k.version
      { Algorithm := algorithm, Value := some (Base64.EncodeToString digest) } w.state = ((res, none), s)) :
    (k.signDigestToBase64RawURL algorithm digest w).1 =
      match res.Kid with
      | none => ([], some .ErrMismatchResponseKeyID)
      | some kid =>
        if kid ≠ k.id then ([], some .ErrMismatchResponseKeyID)
        else
          match res.Result with
          | none => ([], some .ErrInvalidServerResponse)
          | some result => (result, none) := by
  simp only [Key.signDigestToBase64RawURL, callSign, hres]
  cases hk : res.Kid with
  | none => rfl
  | some kid =>
    simp only
    by_cases hne : kid = k.id
    · simp only [hne, ne_eq, not_true_eq_false, if_false]
      cases res.Result <;> rfl
    · simp only [hne, ne_eq, not_false_eq_true, if_true]

theorem Key.Sign_of_digest {σ : Type} (c : Crypto) (k : Key σ)
    (algorithm : JSONWebKeySignatureAlgorithm) (message digest : Bytes) (w : World σ)
    (h : ComputeHash c algorithm message = (digest, none)) :
    k.Sign c algorithm message w = k.SignDigest algorithm digest w := by
  simp only [Key.Sign, Key.signToBase64RawURL, Key.SignDigest, h]

theorem Key.Verify_of_digest {σ : Type} (c : Crypto) (k : Key σ)
    (algorithm : JSONWebKeySignatureAlgorithm) (message digest signature : Bytes) (w : World σ)
    (h : ComputeHash c algorithm message = (digest, none)) :
    k.Verify c algorithm message signature w = k.VerifyDigest algorithm digest signature w := by
  simp only [Key.Verify, h]

theorem Key.SignDigest_eq {σ : Type} (k : Key σ) (algorithm : JSONWebKeySignatureAlgorithm)
    (digest : Bytes) (w : World σ) :
    (k.SignDigest algorithm digest w).1 =
      match (k.signDigestToBase64RawURL algorithm digest w).1 with
      | (_, some err) => ([], some err)
      | (sig, none) => Base64.DecodeString sig := by
  unfold Key.SignDigest
  rcases k.signDigestToBase64RawURL algorithm digest w with ⟨⟨sig, _ | err⟩, w1⟩ <;> rfl

/-- C1. Mismatch detection: for a handle built by `NewKeyWithContext` (hence
also by `NewKey`) from `keyID`, when the client's sign operation returns
without error a response whose key id is absent or differs from `keyID`,
`Key.SignDigest` and, for a message that the registry hashes to the digest,
`Key.Sign` fail with `ErrMismatchResponseKeyID` and return no signature;
equivalently, they return without error only when the response key id equals
`keyID`. -/
theorem sign_response_key_mismatch {σ : Type} (c : Crypto) (ctx : Context)
    (client : BaseClientAPI σ) (keyID : GoString) (k : Key σ)
    (hk : NewKeyWithContext ctx client keyID = .ok k)
    (algorithm : JSONWebKeySignatureAlgorithm) (digest : Bytes) (w : World σ)
    (res : KeyOperationResult) (s : σ)
    (hres : k.Client.Sign k.Context k.vaultBaseURL k.name k.version
      { Algorithm := algorithm, Value := some (Base64.EncodeToString digest) } w.state = ((res, none), s)) :
    (res.Kid ≠ some keyID →
      (k.SignDigest algorithm digest w).1 = ([], some .ErrMismatchResponseKeyID) ∧
        ∀ message : Bytes, ComputeHash c algorithm message = (digest, none) →
          (k.Sign c algorithm message w).1 = ([], some .ErrMismatchResponseKeyID)) ∧
    ((k.SignDigest algorithm digest w).1.2 = none → res.Kid = some keyID) ∧
    (∀ message : Bytes, ComputeHash c algorithm message = (digest, none) →
      (k.Sign c algorithm message w).1.2 = none → res.Kid = some keyID) := by
  have hid := NewKeyWithContext_ok_id ctx client keyID k hk
  have h1 : res.Kid ≠ some keyID →
      (k.SignDigest algorithm digest w).1 = ([], some .ErrMismatchResponseKeyID) := by
    intro hkid
    rw [Key.SignDigest_eq, Key.signDigestToBase64RawURL_of_response k algorithm digest w res s hres]
    cases hr : res.Kid with
    | none => rfl
    | some kid =>
      have hne : kid ≠ k.id := by
        intro e
        apply hkid
        rw [hr, e, hid]
      simp only [hne, ne_eq, not_false_eq_true, if_true]
  have h2 : (k.SignDigest algorithm digest w).1.2 = none → res.Kid = some keyID := by
    intro hnone
    by_contra hkid
    rw [h1 hkid] at hnone
    exact absurd hnone (by simp)
  refine ⟨fun hkid => ⟨h1 hkid, ?_⟩, h2, ?_⟩
  · intro message hm
    rw [Key.Sign_of_digest c k algorithm message digest w hm]
    exact h1 hkid
  · intro message hm
    rw [Key.Sign_of_digest c k algorithm message digest w hm]
    exact h2

/-- C1 on the example handle: the stub answers with the id of another key. -/
theorem sign_response_key_mismatch_witness :
    NewKeyWithContext Context.Background mismatchClient exampleKeyID = .ok (exampleKey mismatchClient) ∧
    ((exampleKey mismatchClient).SignDigest RS256 (str "mess") world0).1
      = ([], some .ErrMismatchResponseKeyID) ∧
    ((exampleKey mismatchClient).Sign stubCrypto RS256 (str "message") world0).1
      = ([], some .ErrMismatchResponseKeyID) :=
  have h := (sign_response_key_mismatch stubCrypto Context.Background mismatchClient exampleKeyID
    (exampleKey mismatchClient) (exampleKey_eq mismatchClient) RS256 (str "mess") world0
    { Kid := some (str "https://vault.example/keys/other/abc123"), Result := some (str "c2ln") } 1
    rfl).1 (by decide)
  ⟨exampleKey_eq mismatchClient, h.1, h.2 (str "message") (by decide)⟩

/-- C2. Sign round trip: for a handle built from `keyID`, when the client's
sign operation returns without error the response with key id `keyID` and
result the unpadded base64url encoding of `b`, `Key.SignDigest` returns exactly
`b` with no error, and so does `Key.Sign` for every message that the registry
hashes (the algorithm is supported). -/
theorem sign_round_trip {σ : Type} (c : Crypto) (ctx : Context)
    (client : BaseClientAPI σ) (keyID : GoString) (k : Key σ)
    (hk : NewKeyWithContext ctx client keyID = .ok k)
    (algorithm : JSONWebKeySignatureAlgorithm) (digest b : Bytes) (w : World σ) (s : σ)
    (hres : k.Client.Sign k.Context k.vaultBaseURL k.name k.version
      { Algorithm := algorithm, Value := some (Base64.EncodeToString digest) } w.state
        = (({ Kid := some keyID, Result := some (Base64.EncodeToString b) }, none), s)) :
    (k.SignDigest algorithm digest w).1 = (b, none) ∧
      ∀ message : Bytes, ComputeHash c algorithm message = (digest, none) →
        (k.Sign c algorithm message w).1 = (b, none) := by
  have hid := NewKeyWithContext_ok_id ctx client keyID k hk
  have h1 : (k.SignDigest algorithm digest w).1 = (b, none) := by
    rw [Key.SignDigest_eq, Key.signDigestToBase64RawURL_of_response k algorithm digest w _ s hres]
    simp only [hid, ne_eq, not_true_eq_false, if_false]
    exact Base64.DecodeString_EncodeToString b
  refine ⟨h1, ?_⟩
  intro message hm
  rw [Key.Sign_of_digest c k algorithm message digest w hm]
  exact h1

/-- C2 on the example handle: the stub echoes the key id and the encoding of
the bytes `sig`. -/
theorem sign_round_trip_witness :
    NewKeyWithContext Context.Background echoClient exampleKeyID = .ok (exampleKey echoClient) ∧
    ((exampleKey echoClient).SignDigest RS256 (str "mess") world0).1 = (str "sig", none) ∧
    ((exampleKey echoClient).Sign stubCrypto RS256 (str "message") world0).1 = (str "sig", none) :=
  have h := sign_round_trip stubCrypto Context.Background echoClient exampleKeyID
    (exampleKey echoClient) (exampleKey_eq echoClient) RS256 (str "mess") (str "sig") world0 1 rfl
  ⟨exampleKey_eq echoClient, h.1, h.2 (str "message") (by decide)⟩

/-! ## Verification: mapping of the response -/

/-- What `VerifyDigest` returns when the client answers `(res, none)`. -/
theorem Key.VerifyDigest_of_response {σ : Type} (k : Key σ)
    (algorithm : JSONWebKeySignatureAlgorithm) (digest signature : Bytes) (w : World σ)
    (res : KeyVerifyResult) (s : σ)
    (hres : k.Client.Verify k.Context k.vaultBaseURL k.name k.version
      { Algorithm := algorithm, Digest := some (Base64.EncodeToString digest),
        Signature := some (Base64.EncodeToString signature) } w.state = ((res, none), s)) :
    (k.VerifyDigest algorithm digest signature w).1 =
      match res.Value with
      | none => some .ErrInvalidServerResponse
      | some valid => if !valid then some .ErrVerification else none := by
  simp only [Key.VerifyDigest, callVerify, hres]
  cases res.Value with
  | none => rfl
  | some valid => cases valid <;> rfl

/-- C3. Verify outcome mapping: when the client's verify operation returns
without error, `Key.VerifyDigest` returns nil if and only if the validity field
of the response is present and true, `ErrVerification` if it is present and
false and `ErrInvalidServerResponse` if it is absent; `Key.Verify` maps the
response the same way for every message that the registry hashes to the
digest. -/
theorem verify_outcome_mapping {σ : Type} (c : Crypto) (k : Key σ)
    (algorithm : JSONWebKeySignatureAlgorithm) (digest signature : Bytes) (w : World σ)
    (res : KeyVerifyResult) (s : σ)
    (hres : k.Client.Verify k.Context k.vaultBaseURL k.name k.version
      { Algorithm := algorithm, Digest := some (Base64.EncodeToString digest),
        Signature := some (Base64.EncodeToString signature) } w.state = ((res, none), s)) :
    (((k.VerifyDigest algorithm digest signature w).1 = none ↔ res.Value = some true) ∧
      (res.Value = some false →
        (k.VerifyDigest algorithm digest signature w).1 = some .ErrVerification) ∧
      (res.Value = none →
        (k.VerifyDigest algorithm digest signature w).1 = some .ErrInvalidServerResponse)) ∧
    ∀ message : Bytes, ComputeHash c algorithm message = (digest, none) →
      (((k.Verify c algorithm message signature w).1 = none ↔ res.Value = some true) ∧
        (res.Value = some false →
          (k.Verify c algorithm message signature w).1 = some .ErrVerification) ∧
        (res.Value = none →
          (k.Verify c algorithm message signature w).1 = some .ErrInvalidServerResponse)) := by
  have h := Key.VerifyDigest_of_response k algorithm digest signature w res s hres
  have h1 : ((k.VerifyDigest algorithm digest signature w).1 = none ↔ res.Value = some true) ∧
      (res.Value = some false →
        (k.VerifyDigest algorithm digest signature w).1 = some .ErrVerification) ∧
      (res.Value = none →
        (k.VerifyDigest algorithm digest signature w).1 = some .ErrInvalidServerResponse) := by
    rw [h]
    cases res.Value with
    | none => simp
    | some valid => cases valid <;> simp
  refine ⟨h1, ?_⟩
  intro message hm
  rw [Key.Verify_of_digest c k algorithm message digest signature w hm]
  exact h1

/-- C3 on the example handle: a stub that reports the signature invalid. -/
theorem verify_outcome_mapping_witness :
    ((exampleKey missingClient).VerifyDigest RS256 (str "mess") (str "sig") world0).1
      = some .ErrVerification ∧
    ((exampleKey missingClient).Verify stubCrypto RS256 (str "message") (str "sig") world0).1
      = some .ErrVerification :=
  have h := verify_outcome_mapping stubCrypto (exampleKey missingClient) RS256 (str "mess") (str "sig")
    world0 { Value := some false } 1 rfl
  ⟨h.1.2.1 rfl, (h.2 (str "message") (by decide)).2.1 rfl⟩

/-! ## Construction of a handle -/

/-- C4. `NewKeyWithContext` (and `NewKey`) rejects malformed identifiers: when
URL parsing fails, or the path with one leading `/` stripped does not split on
`/` into exactly 3 segments, or the first segment is not `keys`, the result is
`jwt.ErrInvalidKey` and no handle; the three identifiers named by the
specification are rejected. -/
theorem newKey_rejects_malformed {σ : Type} (ctx : Context) (client : BaseClientAPI σ) :
    (∀ keyID : GoString,
      ((∃ e, Url.Parse keyID = .error e) ∨
        (∃ u, Url.Parse keyID = .ok u ∧
          ((Split (TrimPrefix u.Path (str "/")) (byte '/')).length ≠ 3 ∨
            (Split (TrimPrefix u.Path (str "/")) (byte '/')).head? ≠ some (str "keys")))) →
      NewKeyWithContext ctx client keyID = .error .ErrInvalidKey ∧
        NewKey client keyID = .error .ErrInvalidKey) ∧
    NewKeyWithContext ctx client (str "https://vault.example/secrets/mykey/abc123")
      = .error .ErrInvalidKey ∧
    NewKeyWithContext ctx client (str "https://vault.example/keys/mykey") = .error .ErrInvalidKey ∧
    NewKeyWithContext ctx client (str "not a url") = .error .ErrInvalidKey := by
  refine ⟨?_, rfl, rfl, rfl⟩
  have key : ∀ (ctx : Context) (keyID : GoString),
      ((∃ e, Url.Parse keyID = .error e) ∨
        (∃ u, Url.Parse keyID = .ok u ∧
          ((Split (TrimPrefix u.Path (str "/")) (byte '/')).length ≠ 3 ∨
            (Split (TrimPrefix u.Path (str "/")) (byte '/')).head? ≠ some (str "keys")))) →
      NewKeyWithContext ctx client keyID = .error .ErrInvalidKey := by
    intro ctx keyID h
    rw [NewKeyWithContext_eq]
    rcases h with ⟨e, he⟩ | ⟨u, hu, hs⟩
    · rw [he]
    · rw [hu]
      simp only
      rcases hsp : Split (TrimPrefix u.Path (str "/")) (byte '/') with
        _ | ⟨p0, _ | ⟨p1, _ | ⟨p2, _ | ⟨p3, ps⟩⟩⟩⟩
      · rfl
      · rfl
      · rfl
      · rw [hsp] at hs
        have h0 : p0 ≠ str "keys" := by
          intro e
          rcases hs with hs | hs
          · simp at hs
          · simp [e] at hs
        simp only [h0, if_false]
      · rfl
  intro keyID h
  exact ⟨key ctx keyID h, key Context.Background keyID h⟩

/-- C4 at an identifier whose host is followed by a non-numeric port, which URL
parsing refuses, and at one with four segments. -/
theorem newKey_rejects_malformed_witness :
    (NewKeyWithContext Context.Background emptyClient (str "https://vault.example:x/keys/mykey/abc123")
        = .error .ErrInvalidKey ∧
      NewKey emptyClient (str "https://vault.example:x/keys/mykey/abc123") = .error .ErrInvalidKey) ∧
    (NewKeyWithContext Context.Background emptyClient (str "https://vault.example/keys/mykey/abc123/x")
        = .error .ErrInvalidKey ∧
      NewKey emptyClient (str "https://vault.example/keys/mykey/abc123/x") = .error .ErrInvalidKey) :=
  ⟨(newKey_rejects_malformed Context.Background emptyClient).1
      (str "https://vault.example:x/keys/mykey/abc123")
      (Or.inl ⟨.URLError "invalid port after host", by decide⟩),
    (newKey_rejects_malformed Context.Background emptyClient).1
      (str "https://vault.example/keys/mykey/abc123/x")
      (Or.inr ⟨{ Scheme := str "https", Host := str "vault.example",
                 Path := str "/keys/mykey/abc123/x" }, by decide, Or.inl (by decide)⟩)⟩

/-- C5. `NewKeyWithContext` (and `NewKey`) decomposes a well-formed identifier:
when the identifier parses as a URL with path `/keys/<n>/<v>`, `n` and `v`
without `/`, the constructor succeeds and the handle has the vault base address
`scheme + "://" + host`, the key name `n`, the key version `v`, and the
identifier itself, unchanged, as its id. -/
theorem newKey_decomposes {σ : Type} (ctx : Context) (client : BaseClientAPI σ)
    (keyID : GoString) (u : Url.URL) (n v : GoString)
    (hparse : Url.Parse keyID = .ok u)
    (hpath : u.Path = str "/keys/" ++ n ++ str "/" ++ v)
    (hn : byte '/' ∉ n) (hv : byte '/' ∉ v) :
    NewKeyWithContext ctx client keyID =
        .ok { Client := client, Context := ctx, id := keyID,
              vaultBaseURL := u.Scheme ++ str "://" ++ u.Host, name := n, version := v } ∧
      NewKey client keyID =
        .ok { Client := client, Context := Context.Background, id := keyID,
              vaultBaseURL := u.Scheme ++ str "://" ++ u.Host, name := n, version := v } := by
  have key : ∀ ctx : Context, NewKeyWithContext ctx client keyID =
      .ok { Client := client, Context := ctx, id := keyID,
            vaultBaseURL := u.Scheme ++ str "://" ++ u.Host, name := n, version := v } := by
    intro ctx
    rw [NewKeyWithContext_eq, hparse]
    simp only
    rw [Split_keys_path u.Path n v (Or.inl hpath) hn hv]
    simp
  exact ⟨key ctx, key Context.Background⟩

/-- C5 at the identifier of the specification:
`https://vault.example/keys/mykey/abc123` gives the base address
`https://vault.example`, the name `mykey` and the version `abc123`. -/
theorem newKey_decomposes_witness :
    NewKeyWithContext Context.Background emptyClient (str "https://vault.example/keys/mykey/abc123") =
        .ok { Client := emptyClient, Context := Context.Background,
              id := str "https://vault.example/keys/mykey/abc123",
              vaultBaseURL := str "https://vault.example", name := str "mykey",
              version := str "abc123" } ∧
      NewKey emptyClient (str "https://vault.example/keys/mykey/abc123") =
        .ok { Client := emptyClient, Context := Context.Background,
              id := str "https://vault.example/keys/mykey/abc123",
              vaultBaseURL := str "https://vault.example", name := str "mykey",
              version := str "abc123" } :=
  newKey_decomposes Context.Background emptyClient (str "https://vault.example/keys/mykey/abc123")
    { Scheme := str "https", Host := str "vault.example", Path := str "/keys/mykey/abc123" }
    (str "mykey") (str "abc123") (by decide) (by decide) (by decide) (by decide)

/-- C6, as the specification states it, fails: `https://vault.example/keys//`
is accepted with an empty key name and an empty key version, and
`https://vault.example/keys/mykey/` with an empty key version. -/
theorem newKey_accepts_empty_segments :
    (NewKey emptyClient (str "https://vault.example/keys//")).toOption.map
        (fun k => (k.vaultBaseURL, k.name, k.version))
      = some (str "https://vault.example", [], []) ∧
    (NewKey emptyClient (str "https://vault.example/keys/mykey/")).toOption.map
        (fun k => (k.vaultBaseURL, k.name, k.version))
      = some (str "https://vault.example", str "mykey", []) := by
  decide

/-- C6, amended. Every handle that `NewKeyWithContext` returns without error
comes from an identifier whose path, with one leading `/` stripped, splits into
exactly three segments: `keys`, the key name and the key version, neither of
which contains `/`. The name and the version are not required to be
non-empty. -/
theorem newKey_ok_three_segments {σ : Type} (ctx : Context) (client : BaseClientAPI σ)
    (keyID : GoString) (k : Key σ) (h : NewKeyWithContext ctx client keyID = .ok k) :
    ∃ u, Url.Parse keyID = .ok u ∧
      Split (TrimPrefix u.Path (str "/")) (byte '/') = [str "keys", k.name, k.version] ∧
      (Split (TrimPrefix u.Path (str "/")) (byte '/')).length = 3 ∧
      byte '/' ∉ k.name ∧ byte '/' ∉ k.version := by
  obtain ⟨u, hu, hs, _⟩ := NewKeyWithContext_ok_inv ctx client keyID k h
  obtain ⟨_, hn, hv⟩ := keys_path_of_Split u.Path k.name k.version hs
  exact ⟨u, hu, hs, by rw [hs]; rfl, hn, hv⟩

/-- C6, amended, on the example handle. -/
theorem newKey_ok_three_segments_witness :
    ∃ u, Url.Parse exampleKeyID = .ok u ∧
      Split (TrimPrefix u.Path (str "/")) (byte '/')
        = [str "keys", (exampleKey emptyClient).name, (exampleKey emptyClient).version] ∧
      (Split (TrimPrefix u.Path (str "/")) (byte '/')).length = 3 ∧
      byte '/' ∉ (exampleKey emptyClient).name ∧ byte '/' ∉ (exampleKey emptyClient).version :=
  newKey_ok_three_segments Context.Background emptyClient exampleKeyID (exampleKey emptyClient)
    (exampleKey_eq emptyClient)

/-- C7, as the specification states it, fails: `keys/mykey/abc123` and
`/keys/mykey/abc123`, which have neither scheme nor host, are accepted, with
the vault base address `://`. -/
theorem newKey_accepts_without_scheme_and_host :
    (NewKey emptyClient (str "keys/mykey/abc123")).toOption.map
        (fun k => (k.id, k.vaultBaseURL, k.name, k.version))
      = some (str "keys/mykey/abc123", str "://", str "mykey", str "abc123") ∧
    (NewKey emptyClient (str "/keys/mykey/abc123")).toOption.map
        (fun k => (k.id, k.vaultBaseURL, k.name, k.version))
      = some (str "/keys/mykey/abc123", str "://", str "mykey", str "abc123") := by
  decide

/-- C7, amended. `NewKeyWithContext` accepts exactly the identifiers that parse
as a URL whose path is `/keys/<name>/<version>` or `keys/<name>/<version>`, with
`<name>` and `<version>` free of `/`; every other identifier is rejected with
`jwt.ErrInvalidKey`. The scheme and the host of the URL are not examined. -/
theorem newKey_accepts_exactly {σ : Type} (ctx : Context) (client : BaseClientAPI σ)
    (keyID : GoString) :
    (∃ u n v, Url.Parse keyID = .ok u ∧
        (u.Path = str "/keys/" ++ n ++ str "/" ++ v ∨ u.Path = str "keys/" ++ n ++ str "/" ++ v) ∧
        byte '/' ∉ n ∧ byte '/' ∉ v ∧
        NewKeyWithContext ctx client keyID =
          .ok { Client := client, Context := ctx, id := keyID,
                vaultBaseURL := u.Scheme ++ str "://" ++ u.Host, name := n, version := v }) ∨
    ((∀ u n v, Url.Parse keyID = .ok u → byte '/' ∉ n → byte '/' ∉ v →
        u.Path ≠ str "/keys/" ++ n ++ str "/" ++ v ∧ u.Path ≠ str "keys/" ++ n ++ str "/" ++ v) ∧
      NewKeyWithContext ctx client keyID = .error .ErrInvalidKey) := by
  cases hr : NewKeyWithContext ctx client keyID with
  | ok k =>
    left
    obtain ⟨u, hu, hs, hk⟩ := NewKeyWithContext_ok_inv ctx client keyID k hr
    obtain ⟨hp, hn, hv⟩ := keys_path_of_Split u.Path k.name k.version hs
    exact ⟨u, k.name, k.version, hu, hp, hn, hv, by rw [← hk]⟩
  | error e =>
    right
    have he : e = .ErrInvalidKey := by
      rw [NewKeyWithContext_eq] at hr
      cases hp : Url.Parse keyID with
      | error e2 =>
        rw [hp] at hr
        exact (Except.error.inj hr).symm
      | ok u =>
        rw [hp] at hr
        simp only at hr
        split at hr
        · split at hr
          · exact absurd hr (by simp)
          · exact (Except.error.inj hr).symm
        · exact (Except.error.inj hr).symm
    refine ⟨?_, by rw [he]⟩
    intro u n v hu hn hv
    have hnot : ¬ (u.Path = str "/keys/" ++ n ++ str "/" ++ v ∨
        u.Path = str "keys/" ++ n ++ str "/" ++ v) := by
      intro hp
      have hs := Split_keys_path u.Path n v hp hn hv
      rw [NewKeyWithContext_eq, hu] at hr
      simp only [hs, if_true] at hr
      exact absurd hr (by simp)
    exact ⟨fun h => hnot (Or.inl h), fun h => hnot (Or.inr h)⟩

/-! ## The signing-method adapter -/

/-- C8. Adapter key-type guard: when the key argument is not a `*Key` handle
(the nil interface or a value of any other dynamic type), `SigningMethod.Sign`
returns the empty string with `jwt.ErrInvalidKeyType` and `SigningMethod.Verify`
returns `jwt.ErrInvalidKeyType`; both leave the client's state and the trace
of invocations as they were, so the remote sign and verify operations are
invoked zero times. -/
theorem signingMethod_key_type_guard {σ : Type} (c : Crypto) (m : SigningMethod)
    (signingString signature : GoString) (key : KeyArg σ) (w : World σ)
    (hkey : ∀ k : Key σ, key ≠ .key k) :
    m.Sign c signingString key w = (([], some .ErrInvalidKeyType), w) ∧
      m.Verify c signingString signature key w = (some .ErrInvalidKeyType, w) ∧
      (m.Sign c signingString key w).2.trace = w.trace ∧
      (m.Verify c signingString signature key w).2.trace = w.trace := by
  cases key with
  | key k => exact absurd rfl (hkey k)
  | nil => exact ⟨rfl, rfl, rfl, rfl⟩
  | other t => exact ⟨rfl, rfl, rfl, rfl⟩

/-- C8 on a nil key, with a stub that counts its invocations: its counter and
the trace stay empty. -/
theorem signingMethod_key_type_guard_witness :
    (⟨RS256⟩ : SigningMethod).Sign stubCrypto (str "header.claims") (KeyArg.nil : KeyArg Nat) world0
        = (([], some .ErrInvalidKeyType), world0) ∧
      (⟨RS256⟩ : SigningMethod).Verify stubCrypto (str "header.claims") (str "c2ln")
        (KeyArg.nil : KeyArg Nat) world0 = (some .ErrInvalidKeyType, world0) ∧
      ((⟨RS256⟩ : SigningMethod).Sign stubCrypto (str "header.claims") (KeyArg.nil : KeyArg Nat)
        world0).2.trace = [] ∧
      ((⟨RS256⟩ : SigningMethod).Verify stubCrypto (str "header.claims") (str "c2ln")
        (KeyArg.nil : KeyArg Nat) world0).2.trace = [] :=
  signingMethod_key_type_guard stubCrypto ⟨RS256⟩ (str "header.claims") (str "c2ln") KeyArg.nil world0
    (fun _ h => KeyArg.noConfusion h)

/-! ## Signing: a response without signature -/

/-- C9. Missing field detection: for a handle built from `keyID`, when the
client's sign operation returns without error a response whose key id equals
`keyID` and whose result is absent, `Key.SignDigest` and, for a message that
the registry hashes to the digest, `Key.Sign` fail with
`ErrInvalidServerResponse` and return no signature. -/
theorem sign_missing_result {σ : Type} (c : Crypto) (ctx : Context)
    (client : BaseClientAPI σ) (keyID : GoString) (k : Key σ)
    (hk : NewKeyWithContext ctx client keyID = .ok k)
    (algorithm : JSONWebKeySignatureAlgorithm) (digest : Bytes) (w : World σ) (s : σ)
    (hres : k.Client.Sign k.Context k.vaultBaseURL k.name k.version
      { Algorithm := algorithm, Value := some (Base64.EncodeToString digest) } w.state
        = (({ Kid := some keyID, Result := none }, none), s)) :
    (k.SignDigest algorithm digest w).1 = ([], some .ErrInvalidServerResponse) ∧
      ∀ message : Bytes, ComputeHash c algorithm message = (digest, none) →
        (k.Sign c algorithm message w).1 = ([], some .ErrInvalidServerResponse) := by
  have hid := NewKeyWithContext_ok_id ctx client keyID k hk
  have h1 : (k.SignDigest algorithm digest w).1 = ([], some .ErrInvalidServerResponse) := by
    rw [Key.SignDigest_eq, Key.signDigestToBase64RawURL_of_response k algorithm digest w _ s hres]
    simp only [hid, ne_eq, not_true_eq_false, if_false]
  refine ⟨h1, ?_⟩
  intro message hm
  rw [Key.Sign_of_digest c k algorithm message digest w hm]
  exact h1

/-- C9 on the example handle: the stub echoes the key id and leaves the
signature out. -/
theorem sign_missing_result_witness :
    NewKeyWithContext Context.Background missingClient exampleKeyID = .ok (exampleKey missingClient) ∧
    ((exampleKey missingClient).SignDigest RS256 (str "mess") world0).1
      = ([], some .ErrInvalidServerResponse) ∧
    ((exampleKey missingClient).Sign stubCrypto RS256 (str "message") world0).1
      = ([], some .ErrInvalidServerResponse) :=
  have h := sign_missing_result stubCrypto Context.Background missingClient exampleKeyID
    (exampleKey missingClient) (exampleKey_eq missingClient) RS256 (str "mess") world0 1 rfl
  ⟨exampleKey_eq missingClient, h.1, h.2 (str "message") (by decide)⟩

/-! ## The algorithm registry -/

theorem HashAlgorithms_lookup_mem :
    ∀ p ∈ HashAlgorithms, HashAlgorithms.lookup p.1 = some p.2 := by decide

theorem HashAlgorithms_lookup_none (algorithm : JSONWebKeySignatureAlgorithm)
    (h : algorithm ∉ [ES256, ES256K, ES384, ES512, PS256, PS384, PS512, RS256, RS384, RS512]) :
    HashAlgorithms.lookup algorithm = none := by
  simp only [List.mem_cons, List.mem_singleton, not_or] at h
  obtain ⟨h0, h1, h2, h3, h4, h5, h6, h7, h8, h9⟩ := h
  simp only [List.mem_nil_iff, not_false_eq_true, and_true] at h9
  have b : ∀ x : JSONWebKeySignatureAlgorithm, ¬ algorithm = x → (algorithm == x) = false :=
    fun x hx => beq_eq_false_iff_ne.mpr hx
  simp only [HashAlgorithms, List.lookup, b _ h0, b _ h1, b _ h2, b _ h3, b _ h4, b _ h5, b _ h6,
    b _ h7, b _ h8, b _ h9]

/-- C10. Algorithm registry: the table maps ES256, ES256K, PS256 and RS256 to
SHA-256, ES384, PS384 and RS384 to SHA-384, ES512, PS512 and RS512 to SHA-512;
for each entry of the table whose hash is available `ComputeHash` succeeds with
the digest that the mapped hash gives for the message; for every algorithm
outside the ten `ComputeHash` returns `ErrUnsupportedAlgorithm` and no
digest. -/
theorem computeHash_registry (c : Crypto) (message : Bytes) :
    (HashAlgorithms.lookup ES256 = some .SHA256 ∧ HashAlgorithms.lookup ES256K = some .SHA256 ∧
      HashAlgorithms.lookup PS256 = some .SHA256 ∧ HashAlgorithms.lookup RS256 = some .SHA256 ∧
      HashAlgorithms.lookup ES384 = some .SHA384 ∧ HashAlgorithms.lookup PS384 = some .SHA384 ∧
      HashAlgorithms.lookup RS384 = some .SHA384 ∧ HashAlgorithms.lookup ES512 = some .SHA512 ∧
      HashAlgorithms.lookup PS512 = some .SHA512 ∧ HashAlgorithms.lookup RS512 = some .SHA512) ∧
    HashAlgorithms.map (fun p => p.1)
      = [ES256, ES256K, ES384, ES512, PS256, PS384, PS512, RS256, RS384, RS512] ∧
    (∀ (algorithm : JSONWebKeySignatureAlgorithm) (hash : Hash),
      (algorithm, hash) ∈ HashAlgorithms → c.Available hash = true →
        ComputeHash c algorithm message = (c.Sum hash message, none)) ∧
    (∀ algorithm : JSONWebKeySignatureAlgorithm,
      algorithm ∉ [ES256, ES256K, ES384, ES512, PS256, PS384, PS512, RS256, RS384, RS512] →
        ComputeHash c algorithm message = ([], some .ErrUnsupportedAlgorithm)) := by
  refine ⟨by decide, by decide, ?_, ?_⟩
  · intro algorithm hash hmem hav
    have hl := HashAlgorithms_lookup_mem (algorithm, hash) hmem
    simp only at hl
    simp only [ComputeHash, hl, hav, c.write_nil, Bool.not_true, Bool.false_eq_true, if_false]
  · intro algorithm hnot
    simp only [ComputeHash, HashAlgorithms_lookup_none algorithm hnot]

/-- C10 with the stand-in hashes: `ES256K` gives the SHA-256 digest, and the
algorithm `RSNULL` of the service, which the table lacks, is unsupported. -/
theorem computeHash_registry_witness :
    ComputeHash stubCrypto ES256K (str "message") = (stubCrypto.Sum .SHA256 (str "message"), none) ∧
      ComputeHash stubCrypto (str "RSNULL") (str "message") = ([], some .ErrUnsupportedAlgorithm) :=
  ⟨(computeHash_registry stubCrypto (str "message")).2.2.1 ES256K .SHA256 (by decide) rfl,
    (computeHash_registry stubCrypto (str "message")).2.2.2 (str "RSNULL") (by decide)⟩

/-! ## Unsupported algorithms -/

theorem HashAlgorithms_keys :
    HashAlgorithms.map (fun p => p.1)
      = [ES256, ES256K, ES384, ES512, PS256, PS384, PS512, RS256, RS384, RS512] := by decide

theorem ComputeHash_unsupported (c : Crypto) (algorithm : JSONWebKeySignatureAlgorithm)
    (message : Bytes) (h : algorithm ∉ HashAlgorithms.map (fun p => p.1)) :
    ComputeHash c algorithm message = ([], some .ErrUnsupportedAlgorithm) := by
  rw [HashAlgorithms_keys] at h
  simp only [ComputeHash, HashAlgorithms_lookup_none algorithm h]

/-- What the message-level operations do when the registry fails: they return
its error and leave the world as it was. -/
theorem Key.Sign_of_hash_error {σ : Type} (c : Crypto) (k : Key σ)
    (algorithm : JSONWebKeySignatureAlgorithm) (message d : Bytes) (e : Error) (w : World σ)
    (h : ComputeHash c algorithm message = (d, some e)) :
    k.Sign c algorithm message w = (([], some e), w) := by
  simp only [Key.Sign, Key.signToBase64RawURL, h]

theorem Key.Verify_of_hash_error {σ : Type} (c : Crypto) (k : Key σ)
    (algorithm : JSONWebKeySignatureAlgorithm) (message signature d : Bytes) (e : Error)
    (w : World σ) (h : ComputeHash c algorithm message = (d, some e)) :
    k.Verify c algorithm message signature w = (some e, w) := by
  simp only [Key.Verify, h]

/-- C11. Unsupported algorithms are detected locally: for an algorithm that is
not a key of the registry, `Key.Sign` and `Key.Verify` return
`ErrUnsupportedAlgorithm`, and so do `SigningMethod.Sign` and
`SigningMethod.Verify` bound to that algorithm when given a `*Key` (and, for
`Verify`, a signature that decodes); all four leave the client's state and the
trace of invocations as they were, so the remote sign and verify operations
are invoked zero times. -/
theorem unsupported_algorithm_detected_locally {σ : Type} (c : Crypto) (k : Key σ)
    (algorithm : JSONWebKeySignatureAlgorithm) (message signature : Bytes)
    (encodedSignature : GoString) (w : World σ)
    (halg : algorithm ∉ HashAlgorithms.map (fun p => p.1)) :
    k.Sign c algorithm message w = (([], some .ErrUnsupportedAlgorithm), w) ∧
    k.Verify c algorithm message signature w = (some .ErrUnsupportedAlgorithm, w) ∧
    (⟨algorithm⟩ : SigningMethod).Sign c message (.key k) w
      = (([], some .ErrUnsupportedAlgorithm), w) ∧
    ((Base64.DecodeString encodedSignature).2 = none →
      (⟨algorithm⟩ : SigningMethod).Verify c message encodedSignature (.key k) w
        = (some .ErrUnsupportedAlgorithm, w)) ∧
    (k.Sign c algorithm message w).2.trace = w.trace ∧
    (k.Verify c algorithm message signature w).2.trace = w.trace := by
  have hs := Key.Sign_of_hash_error c k algorithm message [] .ErrUnsupportedAlgorithm w
    (ComputeHash_unsupported c algorithm message halg)
  have hv : ∀ sig : Bytes, k.Verify c algorithm message sig w = (some .ErrUnsupportedAlgorithm, w) :=
    fun sig => Key.Verify_of_hash_error c k algorithm message sig [] .ErrUnsupportedAlgorithm w
      (ComputeHash_unsupported c algorithm message halg)
  refine ⟨hs, hv signature, ?_, ?_, by rw [hs], by rw [hv signature]⟩
  · simp only [SigningMethod.Sign, hs]
  · intro hdec
    simp only [SigningMethod.Verify]
    rcases hd : Base64.DecodeString encodedSignature with ⟨sig, _ | err⟩
    · simp only [hv sig]
    · rw [hd] at hdec
      exact absurd hdec (by simp)

/-- C11 on the example handle with the algorithm `RSNULL` of the service, which
the registry lacks: the counting stub is never invoked. -/
theorem unsupported_algorithm_detected_locally_witness :
    (exampleKey echoClient).Sign stubCrypto (str "RSNULL") (str "message") world0
      = (([], some .ErrUnsupportedAlgorithm), world0) ∧
    (exampleKey echoClient).Verify stubCrypto (str "RSNULL") (str "message") (str "sig") world0
      = (some .ErrUnsupportedAlgorithm, world0) ∧
    (⟨str "RSNULL"⟩ : SigningMethod).Sign stubCrypto (str "message") (.key (exampleKey echoClient))
      world0 = (([], some .ErrUnsupportedAlgorithm), world0) ∧
    (⟨str "RSNULL"⟩ : SigningMethod).Verify stubCrypto (str "message") (str "c2ln")
      (.key (exampleKey echoClient)) world0 = (some .ErrUnsupportedAlgorithm, world0) ∧
    ((exampleKey echoClient).Sign stubCrypto (str "RSNULL") (str "message") world0).2.trace = [] ∧
    ((exampleKey echoClient).Verify stubCrypto (str "RSNULL") (str "message") (str "sig")
      world0).2.trace = [] :=
  have h := unsupported_algorithm_detected_locally stubCrypto (exampleKey echoClient) (str "RSNULL")
    (str "message") (str "sig") (str "c2ln") world0 (by decide)
  ⟨h.1, h.2.1, h.2.2.1, h.2.2.2.1 (by decide), h.2.2.2.2.1, h.2.2.2.2.2⟩

/-! ## Transport errors -/

/-- What `signDigestToBase64RawURL` and `VerifyDigest` return when the client
answers with an error. -/
theorem Key.SignDigest_of_client_error {σ : Type} (k : Key σ)
    (algorithm : JSONWebKeySignatureAlgorithm) (digest : Bytes) (w : World σ)
    (res : KeyOperationResult) (e : Error) (s : σ)
    (hres : k.Client.Sign k.Context k.vaultBaseURL k.name k.version
      { Algorithm := algorithm, Value := some (Base64.EncodeToString digest) } w.state
        = ((res, some e), s)) :
    (k.SignDigest algorithm digest w).1 = ([], some e) := by
  simp only [Key.SignDigest, Key.signDigestToBase64RawURL, callSign, hres]

theorem Key.VerifyDigest_of_client_error {σ : Type} (k : Key σ)
    (algorithm : JSONWebKeySignatureAlgorithm) (digest signature : Bytes) (w : World σ)
    (res : KeyVerifyResult) (e : Error) (s : σ)
    (hres : k.Client.Verify k.Context k.vaultBaseURL k.name k.version
      { Algorithm := algorithm, Digest := some (Base64.EncodeToString digest),
        Signature := some (Base64.EncodeToString signature) } w.state = ((res, some e), s)) :
    (k.VerifyDigest algorithm digest signature w).1 = some e := by
  simp only [Key.VerifyDigest, callVerify, hres]

/-- C12. Transport errors are propagated unchanged: when the client's sign
operation returns an error `e`, `Key.SignDigest` and, for a message that the
registry hashes to the digest, `Key.Sign` return exactly `e` and no signature,
whatever the response next to the error holds; when the client's verify
operation returns an error `e`, `Key.VerifyDigest` and `Key.Verify` return
exactly `e`, whatever the validity field of the response (absent, false or
true), so the error is not replaced by `ErrVerification` or
`ErrInvalidServerResponse`. -/
theorem transport_errors_propagated {σ : Type} (c : Crypto) (k : Key σ)
    (algorithm : JSONWebKeySignatureAlgorithm) (digest signature : Bytes) (w : World σ)
    (e : Error) :
    (∀ (res : KeyOperationResult) (s : σ),
      k.Client.Sign k.Context k.vaultBaseURL k.name k.version
        { Algorithm := algorithm, Value := some (Base64.EncodeToString digest) } w.state
          = ((res, some e), s) →
      (k.SignDigest algorithm digest w).1 = ([], some e) ∧
        ∀ message : Bytes, ComputeHash c algorithm message = (digest, none) →
          (k.Sign c algorithm message w).1 = ([], some e)) ∧
    (∀ (res : KeyVerifyResult) (s : σ),
      k.Client.Verify k.Context k.vaultBaseURL k.name k.version
        { Algorithm := algorithm, Digest := some (Base64.EncodeToString digest),
          Signature := some (Base64.EncodeToString signature) } w.state = ((res, some e), s) →
      (k.VerifyDigest algorithm digest signature w).1 = some e ∧
        ∀ message : Bytes, ComputeHash c algorithm message = (digest, none) →
          (k.Verify c algorithm message signature w).1 = some e) := by
  refine ⟨?_, ?_⟩
  · intro res s hres
    have h1 := Key.SignDigest_of_client_error k algorithm digest w res e s hres
    refine ⟨h1, ?_⟩
    intro message hm
    rw [Key.Sign_of_digest c k algorithm message digest w hm]
    exact h1
  · intro res s hres
    have h1 := Key.VerifyDigest_of_client_error k algorithm digest signature w res e s hres
    refine ⟨h1, ?_⟩
    intro message hm
    rw [Key.Verify_of_digest c k algorithm message digest signature w hm]
    exact h1

/-- C12 on the example handle: the stub fails with error 503 next to a response
that is well formed and reports the signature valid. -/
theorem transport_errors_propagated_witness :
    ((exampleKey failingClient).SignDigest RS256 (str "mess") world0).1 = ([], some (.other 503)) ∧
    ((exampleKey failingClient).Sign stubCrypto RS256 (str "message") world0).1
      = ([], some (.other 503)) ∧
    ((exampleKey failingClient).VerifyDigest RS256 (str "mess") (str "sig") world0).1
      = some (.other 503) ∧
    ((exampleKey failingClient).Verify stubCrypto RS256 (str "message") (str "sig") world0).1
      = some (.other 503) :=
  have h := transport_errors_propagated stubCrypto (exampleKey failingClient) RS256 (str "mess")
    (str "sig") world0 (.other 503)
  have hs := h.1 { Kid := some exampleKeyID, Result := some (Base64.EncodeToString (str "sig")) } 1 rfl
  have hv := h.2 { Value := some true } 1 rfl
  ⟨hs.1, hs.2 (str "message") (by decide), hv.1, hv.2 (str "message") (by decide)⟩

/-! ## The adapter around `Key.Sign` and `Key.Verify` -/

/-- C13. Adapter sign encoding: given a `*Key`, `SigningMethod.Sign` returns the
error of `Key.Sign` on the bytes of the signing string (so it succeeds exactly
when `Key.Sign` does) and makes the same remote call; on success its string is
the unpadded base64url encoding of the bytes that `Key.Sign` returned, and
decoding it gives back those bytes; on failure it returns the empty string
with the same error. -/
theorem adapter_sign_encoding {σ : Type} (c : Crypto) (m : SigningMethod)
    (signingString : GoString) (k : Key σ) (w : World σ) :
    (m.Sign c signingString (.key k) w).1.2 = (k.Sign c m.algorithm signingString w).1.2 ∧
    (m.Sign c signingString (.key k) w).2 = (k.Sign c m.algorithm signingString w).2 ∧
    ((k.Sign c m.algorithm signingString w).1.2 = none →
      (m.Sign c signingString (.key k) w).1.1
          = Base64.EncodeToString (k.Sign c m.algorithm signingString w).1.1 ∧
        Base64.DecodeString (m.Sign c signingString (.key k) w).1.1
          = ((k.Sign c m.algorithm signingString w).1.1, none)) ∧
    (∀ e : Error, (k.Sign c m.algorithm signingString w).1.2 = some e →
      (m.Sign c signingString (.key k) w).1 = ([], some e)) := by
  simp only [SigningMethod.Sign]
  rcases k.Sign c m.algorithm signingString w with ⟨⟨sig, _ | err⟩, w1⟩
  · refine ⟨rfl, rfl, fun _ => ⟨rfl, ?_⟩, ?_⟩
    · exact Base64.DecodeString_EncodeToString sig
    · intro e he
      exact absurd he (by simp)
  · refine ⟨rfl, rfl, ?_, ?_⟩
    · intro he
      exact absurd he (by simp)
    · intro e he
      simp only [Option.some.injEq] at he
      rw [he]

/-- C14, as the specification states it, fails: the signature `c2` newline
`ln` is not valid unpadded base64url, since a newline is no byte of the URL
alphabet, yet the decoder skips the newline and returns the bytes `sig`
without error, and `SigningMethod.Verify` invokes the remote verify operation
once and returns its verdict. -/
theorem adapter_verify_accepts_newline :
    Base64.isRawURL (str "c2\nln") = false ∧
    Base64.DecodeString (str "c2\nln") = (str "sig", none) ∧
    ((⟨RS256⟩ : SigningMethod).Verify stubCrypto (str "message") (str "c2\nln")
      (.key (exampleKey echoClient)) world0).1 = none ∧
    ((⟨RS256⟩ : SigningMethod).Verify stubCrypto (str "message") (str "c2\nln")
      (.key (exampleKey echoClient)) world0).2.trace =
      [Call.Verify Context.Background (str "https://vault.example") (str "mykey") (str "abc123")
        { Algorithm := RS256, Digest := some (str "bWVzcw"), Signature := some (str "c2ln") }] ∧
    ((⟨RS256⟩ : SigningMethod).Verify stubCrypto (str "message") (str "c2\nln")
      (.key (exampleKey echoClient)) world0).2.state = 1 := by
  decide

/-- C14, amended. Adapter verify decoding: given a `*Key`, when the signature
string with its newlines and carriage returns removed is not valid unpadded
base64url (a byte outside the URL alphabet, or a length of 1 modulo 4),
`SigningMethod.Verify` fails with the decode error and leaves the client's
state and the trace of invocations as they were, so the remote verify
operation is not invoked; when it is valid, the decoder returns the bytes that
the string without newlines and carriage returns encodes, and
`SigningMethod.Verify` is `Key.Verify` on the bytes of the signing string and
those decoded bytes. -/
theorem adapter_verify_decoding {σ : Type} (c : Crypto) (m : SigningMethod)
    (signingString signature : GoString) (k : Key σ) (w : World σ) :
    (Base64.isRawURL (Base64.stripNewlines signature) = false →
      ∃ e : Error, (Base64.DecodeString signature).2 = some e ∧
        m.Verify c signingString signature (.key k) w = (some e, w) ∧
        (m.Verify c signingString signature (.key k) w).2.trace = w.trace) ∧
    (Base64.isRawURL (Base64.stripNewlines signature) = true →
      (Base64.DecodeString signature).2 = none ∧
        Base64.DecodeString signature = Base64.DecodeString (Base64.stripNewlines signature) ∧
        m.Verify c signingString signature (.key k) w
          = k.Verify c m.algorithm signingString
              (Base64.DecodeString (Base64.stripNewlines signature)).1 w) := by
  refine ⟨?_, ?_⟩
  · intro hbad
    have hne : ¬ (Base64.DecodeString signature).2 = none := by
      intro hok
      rw [(Base64.DecodeString_ok_iff_isRawURL signature).mp hok] at hbad
      exact absurd hbad (by simp)
    simp only [SigningMethod.Verify]
    rcases hd : Base64.DecodeString signature with ⟨sig, _ | err⟩
    · rw [hd] at hne
      exact absurd rfl hne
    · exact ⟨err, rfl, rfl, rfl⟩
  · intro hgood
    have hok := (Base64.DecodeString_ok_iff_isRawURL signature).mpr hgood
    have hstrip := Base64.DecodeString_stripNewlines signature hok
    refine ⟨hok, hstrip.symm, ?_⟩
    rw [hstrip]
    simp only [SigningMethod.Verify]
    rcases hd : Base64.DecodeString signature with ⟨sig, _ | err⟩
    · rfl
    · rw [hd] at hok
      exact absurd hok (by simp)

/-! ## What is sent to the client -/

/-- The world after `signDigestToBase64RawURL`: one sign request more in the
trace, and the client in the state its `Sign` returned. -/
theorem Key.signDigestToBase64RawURL_world {σ : Type} (k : Key σ)
    (algorithm : JSONWebKeySignatureAlgorithm) (digest : Bytes) (w : World σ) :
    (k.signDigestToBase64RawURL algorithm digest w).2 =
      { state := (k.Client.Sign k.Context k.vaultBaseURL k.name k.version
          { Algorithm := algorithm, Value := some (Base64.EncodeToString digest) } w.state).2
        trace := w.trace ++ [Call.Sign k.Context k.vaultBaseURL k.name k.version
          { Algorithm := algorithm, Value := some (Base64.EncodeToString digest) }] } := by
  simp only [Key.signDigestToBase64RawURL, callSign]
  split
  · rfl
  · split
    · rfl
    · split
      · rfl
      · split <;> rfl

theorem Key.SignDigest_world {σ : Type} (k : Key σ)
    (algorithm : JSONWebKeySignatureAlgorithm) (digest : Bytes) (w : World σ) :
    (k.SignDigest algorithm digest w).2 = (k.signDigestToBase64RawURL algorithm digest w).2 := by
  unfold Key.SignDigest
  rcases k.signDigestToBase64RawURL algorithm digest w with ⟨⟨sig, _ | err⟩, w1⟩ <;> rfl

/-- The world after `VerifyDigest`: one verify request more in the trace, and
the client in the state its `Verify` returned. -/
theorem Key.VerifyDigest_world {σ : Type} (k : Key σ)
    (algorithm : JSONWebKeySignatureAlgorithm) (digest signature : Bytes) (w : World σ) :
    (k.VerifyDigest algorithm digest signature w).2 =
      { state := (k.Client.Verify k.Context k.vaultBaseURL k.name k.version
          { Algorithm := algorithm, Digest := some (Base64.EncodeToString digest),
            Signature := some (Base64.EncodeToString signature) } w.state).2
        trace := w.trace ++ [Call.Verify k.Context k.vaultBaseURL k.name k.version
          { Algorithm := algorithm, Digest := some (Base64.EncodeToString digest),
            Signature := some (Base64.EncodeToString signature) }] } := by
  simp only [Key.VerifyDigest, callVerify]
  split
  · rfl
  · split
    · rfl
    · split <;> rfl

/-- C13 on the example handle: the adapter returns `c2ln`, the encoding of the
bytes `sig` that `Key.Sign` returns, and with a corrupt payload it returns the
empty string with the decode error of `Key.Sign`. -/
theorem adapter_sign_encoding_witness :
    ((⟨RS256⟩ : SigningMethod).Sign stubCrypto (str "message") (.key (exampleKey echoClient))
      world0).1 = (str "c2ln", none) ∧
    Base64.DecodeString (str "c2ln") = (str "sig", none) ∧
    ((⟨RS256⟩ : SigningMethod).Sign stubCrypto (str "message") (.key (exampleKey corruptClient))
      world0).1 = ([], some (.CorruptInputError 4)) :=
  have h := adapter_sign_encoding stubCrypto ⟨RS256⟩ (str "message") (exampleKey echoClient) world0
  have h2 := adapter_sign_encoding stubCrypto ⟨RS256⟩ (str "message") (exampleKey corruptClient)
    world0
  ⟨Prod.ext (h.2.2.1 (by decide)).1 h.1, by decide, h2.2.2.2 (.CorruptInputError 4) (by decide)⟩

/-- C14, amended, on the example handle: the signature `c2ln!` is not valid,
does not decode, and the counting stub is not invoked; the signature `c2ln`
broken by a carriage return and a newline is valid once they are removed, and
the adapter is `Key.Verify` on the bytes `sig`. -/
theorem adapter_verify_decoding_witness :
    (⟨RS256⟩ : SigningMethod).Verify stubCrypto (str "message") (str "c2ln!")
      (.key (exampleKey echoClient)) world0 = (some (.CorruptInputError 4), world0) ∧
    (⟨RS256⟩ : SigningMethod).Verify stubCrypto (str "message") (str "c2\r\nln")
      (.key (exampleKey echoClient)) world0
      = (exampleKey echoClient).Verify stubCrypto RS256 (str "message") (str "sig") world0 :=
  have h := (adapter_verify_decoding stubCrypto ⟨RS256⟩ (str "message") (str "c2ln!")
    (exampleKey echoClient) world0).1 (by decide)
  have h2 := (adapter_verify_decoding stubCrypto ⟨RS256⟩ (str "message") (str "c2\r\nln")
    (exampleKey echoClient) world0).2 (by decide)
  have hd : (Base64.DecodeString (str "c2ln!")).2 = some (Error.CorruptInputError 4) := by decide
  ⟨h.elim (fun e he => (Option.some.inj (he.1.symm.trans hd)) ▸ he.2.1), h2.2.2⟩

/-- C15. Only the locally computed digest crosses the boundary: for a handle
built from a well-formed identifier and a message that the registry hashes
(the algorithm is supported), `Key.Sign` adds exactly one invocation to the
trace, the sign request with the handle's context, vault base address, key
name and key version, the same algorithm, and as value the unpadded base64url
encoding of `ComputeHash(algorithm, message)`; `Key.Verify` adds exactly one
invocation, the verify request with the same locator and algorithm, that
encoded digest and the encoded signature. -/
theorem only_digest_crosses_boundary {σ : Type} (c : Crypto) (ctx : Context)
    (client : BaseClientAPI σ) (keyID : GoString) (k : Key σ)
    (hk : NewKeyWithContext ctx client keyID = .ok k)
    (algorithm : JSONWebKeySignatureAlgorithm) (message signature digest : Bytes) (w : World σ)
    (hd : ComputeHash c algorithm message = (digest, none)) :
    (k.Sign c algorithm message w).2.trace =
      w.trace ++ [Call.Sign ctx k.vaultBaseURL k.name k.version
        { Algorithm := algorithm, Value := some (Base64.EncodeToString digest) }] ∧
    (k.Verify c algorithm message signature w).2.trace =
      w.trace ++ [Call.Verify ctx k.vaultBaseURL k.name k.version
        { Algorithm := algorithm, Digest := some (Base64.EncodeToString digest),
          Signature := some (Base64.EncodeToString signature) }] := by
  have hctx : k.Context = ctx := by
    obtain ⟨u, _, _, hkeq⟩ := NewKeyWithContext_ok_inv ctx client keyID k hk
    rw [hkeq]
  refine ⟨?_, ?_⟩
  · rw [Key.Sign_of_digest c k algorithm message digest w hd, Key.SignDigest_world,
      Key.signDigestToBase64RawURL_world, hctx]
  · rw [Key.Verify_of_digest c k algorithm message digest signature w hd, Key.VerifyDigest_world,
      hctx]

/-- C15 on the example handle: the digest of `message` under the stand-in hash
is `mess`, sent as `bWVzcw`; the signature `sig` is sent as `c2ln`. -/
theorem only_digest_crosses_boundary_witness :
    ((exampleKey echoClient).Sign stubCrypto RS256 (str "message") world0).2.trace =
      [Call.Sign Context.Background (str "https://vault.example") (str "mykey") (str "abc123")
        { Algorithm := RS256, Value := some (str "bWVzcw") }] ∧
    ((exampleKey echoClient).Verify stubCrypto RS256 (str "message") (str "sig") world0).2.trace =
      [Call.Verify Context.Background (str "https://vault.example") (str "mykey") (str "abc123")
        { Algorithm := RS256, Digest := some (str "bWVzcw"), Signature := some (str "c2ln") }] :=
  only_digest_crosses_boundary stubCrypto Context.Background echoClient exampleKeyID
    (exampleKey echoClient) (exampleKey_eq echoClient) RS256 (str "message") (str "sig") (str "mess")
    world0 (by decide)

/-! ## Message-level and digest-level operations -/

/-- C16. The message-level operations are the digest-level operations composed
with the registry hash: `Key.Sign` and `Key.Verify` are the operations that
the specification words (`Key.SignSpec`, `Key.VerifySpec`), for every
algorithm; hence, when the registry hashes the message to `digest` (the
algorithm is supported), `Key.Sign` is `Key.SignDigest` on `digest` and
`Key.Verify` is `Key.VerifyDigest` on `digest`: same bytes, same error, same
client state and same trace of requests. -/
theorem message_level_is_digest_level {σ : Type} (c : Crypto) (k : Key σ)
    (algorithm : JSONWebKeySignatureAlgorithm) (message signature : Bytes) (w : World σ) :
    k.Sign c algorithm message w = k.SignSpec c algorithm message w ∧
    k.Verify c algorithm message signature w = k.VerifySpec c algorithm message signature w ∧
    (∀ digest : Bytes, ComputeHash c algorithm message = (digest, none) →
      k.Sign c algorithm message w = k.SignDigest algorithm digest w ∧
        k.Verify c algorithm message signature w = k.VerifyDigest algorithm digest signature w) := by
  refine ⟨?_, rfl, ?_⟩
  · rcases hh : ComputeHash c algorithm message with ⟨d, _ | e⟩
    · rw [Key.Sign_of_digest c k algorithm message d w hh]
      simp only [Key.SignSpec, hh]
    · rw [Key.Sign_of_hash_error c k algorithm message d e w hh]
      simp only [Key.SignSpec, hh]
  · intro digest hd
    exact ⟨Key.Sign_of_digest c k algorithm message digest w hd,
      Key.Verify_of_digest c k algorithm message digest signature w hd⟩

/-- C16 on the example handle, with the digest `mess` of `message`. -/
theorem message_level_is_digest_level_witness :
    (exampleKey echoClient).Sign stubCrypto RS256 (str "message") world0
      = (exampleKey echoClient).SignDigest RS256 (str "mess") world0 ∧
    (exampleKey echoClient).Verify stubCrypto RS256 (str "message") (str "sig") world0
      = (exampleKey echoClient).VerifyDigest RS256 (str "mess") (str "sig") world0 :=
  (message_level_is_digest_level stubCrypto (exampleKey echoClient) RS256 (str "message") (str "sig")
    world0).2.2 (str "mess") (by decide)

/-! ## Signing: a payload that does not decode -/

/-- The bytes that `Key.SignDigest` returns next to an error: none, unless the
error is the decode error of a payload that passed the checks on the
response, in which case they are the bytes decoded before the corrupt input. -/
theorem Key.SignDigest_error_bytes {σ : Type} (k : Key σ)
    (algorithm : JSONWebKeySignatureAlgorithm) (digest b : Bytes) (e : Error) (w : World σ)
    (h : (k.SignDigest algorithm digest w).1 = (b, some e)) :
    b = [] ∨ ∃ payload : GoString,
      (k.signDigestToBase64RawURL algorithm digest w).1 = (payload, none) ∧
        Base64.DecodeString payload = (b, some e) := by
  rw [Key.SignDigest_eq] at h
  rcases hs : (k.signDigestToBase64RawURL algorithm digest w).1 with ⟨payload, _ | err⟩
  · rw [hs] at h
    exact Or.inr ⟨payload, rfl, h⟩
  · rw [hs] at h
    left
    exact (Prod.mk.inj h).1.symm

/-- C17 does not hold of the code: with the key id matching and the payload
`c2ln!`, which is corrupt at offset 4, `Key.SignDigest` and `Key.Sign` return
the decode error together with the three bytes `sig` decoded before it. -/
theorem sign_releases_bytes_with_decode_error :
    ((exampleKey corruptClient).SignDigest RS256 (str "mess") world0).1
      = (str "sig", some (.CorruptInputError 4)) ∧
    ((exampleKey corruptClient).Sign stubCrypto RS256 (str "message") world0).1
      = (str "sig", some (.CorruptInputError 4)) := by
  decide

/-! ## Signing: order of the checks on the response -/

/-- C18. Validation order of the sign response: when the client's sign
operation returns without error a response whose key id is absent or differs
from the handle's identifier and whose result is absent as well,
`Key.SignDigest` reports `ErrMismatchResponseKeyID`; and whatever the
response, `Key.SignDigest` reports `ErrInvalidServerResponse` only if the
response key id equals the handle's identifier. -/
theorem sign_response_validation_order {σ : Type} (k : Key σ)
    (algorithm : JSONWebKeySignatureAlgorithm) (digest : Bytes) (w : World σ)
    (res : KeyOperationResult) (s : σ)
    (hres : k.Client.Sign k.Context k.vaultBaseURL k.name k.version
      { Algorithm := algorithm, Value := some (Base64.EncodeToString digest) } w.state = ((res, none), s)) :
    (res.Kid ≠ some k.id → res.Result = none →
      (k.SignDigest algorithm digest w).1 = ([], some .ErrMismatchResponseKeyID)) ∧
    ((k.SignDigest algorithm digest w).1.2 = some .ErrInvalidServerResponse →
      res.Kid = some k.id) := by
  have h := Key.signDigestToBase64RawURL_of_response k algorithm digest w res s hres
  have h1 : res.Kid ≠ some k.id →
      (k.SignDigest algorithm digest w).1 = ([], some .ErrMismatchResponseKeyID) := by
    intro hkid
    rw [Key.SignDigest_eq, h]
    cases hr : res.Kid with
    | none => rfl
    | some kid =>
      have hne : kid ≠ k.id := by
        intro e
        apply hkid
        rw [hr, e]
      simp only [hne, ne_eq, not_false_eq_true, if_true]
  refine ⟨fun hkid _ => h1 hkid, ?_⟩
  intro herr
  by_contra hkid
  rw [h1 hkid] at herr
  exact absurd herr (by simp)

/-- C18 on the example handle: the stub answers with neither key id nor
result. -/
theorem sign_response_validation_order_witness :
    ((exampleKey emptyClient).SignDigest RS256 (str "mess") world0).1
      = ([], some .ErrMismatchResponseKeyID) :=
  (sign_response_validation_order (exampleKey emptyClient) RS256 (str "mess") world0
    { Kid := none, Result := none } 1 rfl).1 (by decide) rfl

/-! ## Hosts in brackets -/

namespace Netip

theorem hexDigits_le (s : GoString) : hexDigits s ≤ s.length := by
  induction s with
  | nil => simp [hexDigits]
  | cons c s ih =>
    simp only [hexDigits, List.length_cons]
    split <;> omega

/-- The loop of `parseIPv6` ends within `len(s) + 1` passes: more fuel changes
nothing. -/
theorem parseIPv6Loop_fuel (fuel : Nat) :
    ∀ (fuel2 : Nat) (s : GoString) (i : Nat) (ellipsis : Bool),
      s.length < fuel → s.length < fuel2 →
      parseIPv6Loop fuel s i ellipsis = parseIPv6Loop fuel2 s i ellipsis := by
  induction fuel with
  | zero =>
    intro fuel2 s i ellipsis h1 _
    exact absurd h1 (Nat.not_lt_zero _)
  | succ fuel ih =>
    intro fuel2 s i ellipsis h1 h2
    cases fuel2 with
    | zero => exact absurd h2 (Nat.not_lt_zero _)
    | succ fuel2 =>
      have hle := hexDigits_le s
      simp only [parseIPv6Loop]
      by_cases h0 : hexDigits s = 0
      · simp [h0]
      · have hd1 : ((s.drop (hexDigits s)).drop 1).length < fuel ∧
            ((s.drop (hexDigits s)).drop 1).length < fuel2 := by
          simp only [List.length_drop]
          omega
        have hd2 : ((s.drop (hexDigits s)).drop 2).length < fuel ∧
            ((s.drop (hexDigits s)).drop 2).length < fuel2 := by
          simp only [List.length_drop]
          omega
        rw [ih fuel2 ((s.drop (hexDigits s)).drop 1) (i + 2) ellipsis hd1.1 hd1.2,
          ih fuel2 ((s.drop (hexDigits s)).drop 2) (i + 2) true hd2.1 hd2.2]

end Netip

/-- Hosts in brackets: an identifier whose bracketed host is a name or an IPv4
address, or whose `[` does not open the host, does not parse as a URL and is
rejected; one whose bracketed host is an IPv6 address is decomposed as any
other. -/
theorem newKey_bracketed_hosts :
    (NewKey emptyClient (str "https://[vault]/keys/a/b")).toOption.map (fun k => k.vaultBaseURL)
      = none ∧
    (NewKey emptyClient (str "https://a[b]/keys/a/b")).toOption.map (fun k => k.vaultBaseURL)
      = none ∧
    (NewKey emptyClient (str "https://[1.2.3.4]/keys/a/b")).toOption.map (fun k => k.vaultBaseURL)
      = none ∧
    (NewKey emptyClient (str "https://[::1]:443/keys/a/b")).toOption.map
        (fun k => (k.vaultBaseURL, k.name, k.version))
      = some (str "https://[::1]:443", str "a", str "b") := by
  decide

end Azure
